import Mathlib

/-!
Verification of the squidalytics record-hydration and statistics layer.

Shallow embedding of:
- `squidalytics/schemas/base.py` (recursive hydration, id indexing, list
  collections),
- `squidalytics/schemas/battle.py` (ability ledgers, gear classification,
  player/team/match summaries),
- `squidalytics/analytics/build_consensus/main.py` (ability binning).

Python `dict`s are modelled as ordered association lists with unique keys,
Python `int` as `Int`, Python `float` ratios as `Rat`, exceptions as
`Option`/`Except` results.
-/

set_option maxHeartbeats 1000000

/-! ## Ordered dictionaries (Python `dict` as an association list) -/

/-- Python `d[k]` lookup: `none` models a `KeyError`. -/
def dictGet {α : Type} : List (String × α) → String → Option α
  | [], _ => none
  | (k', v) :: rest, k => if k' = k then some v else dictGet rest k

/-- Python `d[k] = v`: overwrite in place if the key exists, else append
(preserving insertion order). -/
def dinsert {α : Type} : List (String × α) → String → α → List (String × α)
  | [], k, v => [(k, v)]
  | (k', v') :: rest, k, v =>
    if k' = k then (k', v) :: rest else (k', v') :: dinsert rest k v

/-- Python `d.update(u)`: assign the pairs of `u` left to right. -/
def dictUpdate {α : Type} (l : List (String × α)) (u : List (String × α)) :
    List (String × α) :=
  u.foldl (fun acc kv => dinsert acc kv.1 kv.2) l

/-- Python `d.pop(k)`: remove the entry and return it with the remaining dict;
`none` models a `KeyError`. -/
def dictPop {α : Type} : List (String × α) → String → Option (α × List (String × α))
  | [], _ => none
  | (k', v) :: rest, k =>
    if k' = k then some (v, rest)
    else (dictPop rest k).map (fun p => (p.1, (k', v) :: p.2))

def dictKeys {α : Type} (l : List (String × α)) : List String := l.map Prod.fst

theorem dictGet_cons_eq {α : Type} {k : String} {v : α} {rest : List (String × α)} :
    dictGet ((k, v) :: rest) k = some v := by
  simp [dictGet]

theorem dictGet_cons_ne {α : Type} {k k' : String} {v : α} {rest : List (String × α)}
    (h : k' ≠ k) : dictGet ((k', v) :: rest) k = dictGet rest k := by
  simp [dictGet, h]

theorem dictGet_mem {α : Type} {l : List (String × α)} {k : String} {v : α}
    (h : dictGet l k = some v) : (k, v) ∈ l := by
  induction l with
  | nil => simp [dictGet] at h
  | cons kv rest ih =>
    obtain ⟨k', v'⟩ := kv
    by_cases hk : k' = k
    · subst hk
      rw [dictGet_cons_eq] at h
      injection h with h
      subst h
      exact List.mem_cons_self _ _
    · rw [dictGet_cons_ne hk] at h
      exact List.mem_cons_of_mem _ (ih h)

theorem dictGet_isSome_of_mem_keys {α : Type} {l : List (String × α)} {k : String}
    (h : k ∈ dictKeys l) : (dictGet l k).isSome := by
  induction l with
  | nil => simp [dictKeys] at h
  | cons kv rest ih =>
    obtain ⟨k', v'⟩ := kv
    by_cases hk : k' = k
    · subst hk
      simp [dictGet]
    · rw [dictGet_cons_ne hk]
      simp [dictKeys] at h
      rcases h with h | h
      · exact absurd h.symm hk
      · exact ih (by simpa [dictKeys] using h)

theorem dictGet_none_of_not_mem_keys {α : Type} {l : List (String × α)} {k : String}
    (h : k ∉ dictKeys l) : dictGet l k = none := by
  induction l with
  | nil => rfl
  | cons kv rest ih =>
    obtain ⟨k', v'⟩ := kv
    have h1 : k' ≠ k := by
      intro he
      exact h (by simp [dictKeys, he])
    have h2 : k ∉ dictKeys rest := by
      intro hm
      exact h (by simp [dictKeys] at hm ⊢; right; exact hm)
    rw [dictGet_cons_ne h1, ih h2]

/-- An association list with the given distinct keys and values is the map of
the value function over the key list. -/
theorem assoc_eq_map_of_keys {α : Type} :
    ∀ (l : List (String × α)) (ks : List String) (f : String → α),
      dictKeys l = ks → ks.Nodup → (∀ a ∈ ks, dictGet l a = some (f a)) →
      l = ks.map (fun a => (a, f a))
  | [], [], _, _, _, _ => rfl
  | [], k :: ks, f, hkeys, _, _ => by simp [dictKeys] at hkeys
  | kv :: l, [], f, hkeys, _, _ => by simp [dictKeys] at hkeys
  | (k', v') :: l, k :: ks, f, hkeys, hnd, hget => by
    simp only [dictKeys, List.map_cons, List.cons.injEq] at hkeys
    obtain ⟨hk, hkeys'⟩ := hkeys
    subst hk
    have hv : v' = f k' := by
      have := hget k' (List.mem_cons_self _ _)
      rw [dictGet_cons_eq] at this
      injection this
    have hnd' := hnd.of_cons
    have hknot : k' ∉ ks := by
      intro hmem
      exact (List.nodup_cons.mp hnd).1 hmem
    have hrest : ∀ a ∈ ks, dictGet l a = some (f a) := by
      intro a ha
      have hne : k' ≠ a := by
        intro h
        exact hknot (h ▸ ha)
      have := hget a (List.mem_cons_of_mem _ ha)
      rwa [dictGet_cons_ne hne] at this
    have := assoc_eq_map_of_keys l ks f hkeys' hnd' hrest
    simp [List.map_cons, hv, this]

/-! ## Known ability names (`squidalytics/constants.py`) -/

def PRIMARY_ONLY : List String :=
  ["Comeback", "Last-Ditch Effort", "Opening Gambit", "Tenacity",
   "Ability Doubler", "Haunt", "Ninja Squid", "Respawn Punisher",
   "Thermal Ink", "Drop Roller", "Object Shredder", "Stealth Jump"]

def ABILITIES : List String :=
  ["Ink Saver (Main)", "Ink Saver (Sub)", "Ink Recovery Up", "Run Speed Up",
   "Swim Speed Up", "Special Charge Up", "Special Saver", "Special Power Up",
   "Quick Respawn", "Quick Super Jump", "Sub Power Up", "Ink Resistance Up",
   "Sub Resistance Up", "Intensify Action"]

def ALL_ABILITIES : List String := PRIMARY_ONLY ++ ABILITIES

/-- Python `str.lower()`, modelled character-wise so that it evaluates inside
the kernel (`String.toLower` is equal but does not reduce definitionally); the
names involved are ASCII, for which `Char.toLower` matches Python. -/
def pyLower (s : String) : String := String.mk (s.data.map Char.toLower)

/-! ## Gear ability ledgers (`gearSchema.calculate_abilities`) -/

/-- A gear power slot; only the `name` attribute is used by the ability
computations (the `image` sub-object is irrelevant to them). -/
structure GearPower where
  name : String
deriving DecidableEq

/-- An equipment item (`gearSchema`); the fields not used by
`calculate_abilities`/`classify_gear` (images, brand) are omitted. -/
structure Gear where
  name : String
  primaryGearPower : GearPower
  additionalGearPowers : List GearPower
deriving DecidableEq

/-- Python `d[k] += n` on an integer dict: `none` models the `KeyError` raised
when the key is absent. -/
def addPoints : List (String × Int) → String → Int → Option (List (String × Int))
  | [], _, _ => none
  | (k', v) :: rest, k, n =>
    if k' = k then some ((k', v + n) :: rest)
    else (addPoints rest k n).map (fun r => (k', v) :: r)

/-- `abilities = {ability: 0 for ability in ALL_ABILITIES}` -/
def initLedger : List (String × Int) := ALL_ABILITIES.map (fun a => (a, 0))

/-- The `for ability in self.additionalGearPowers` loop: an empty
(case-insensitively "unknown") slot contributes nothing, every other slot adds
the secondary weight 3. -/
def secondaryLoop : List (String × Int) → List GearPower → Option (List (String × Int))
  | l, [] => some l
  | l, s :: rest =>
    if pyLower s.name = "unknown" then secondaryLoop l rest
    else
      match addPoints l s.name 3 with
      | none => none
      | some l' => secondaryLoop l' rest

/-- `gearSchema.calculate_abilities`: primary ability gets 10 points, each
non-empty secondary slot 3 points. -/
def Gear.calculate_abilities (g : Gear) : Option (List (String × Int)) :=
  match addPoints initLedger g.primaryGearPower.name 10 with
  | none => none
  | some l => secondaryLoop l g.additionalGearPowers

/-- `abilities[a]` where the ledger is known to carry every ability key. -/
def lookup0 (l : List (String × Int)) (a : String) : Int := (dictGet l a).getD 0

/-- `gearSchema.classify_gear`. -/
def Gear.classify_gear (g : Gear) : Option String :=
  match g.calculate_abilities with
  | none => none
  | some abilities =>
    if ABILITIES.any (fun a => lookup0 abilities a == 19) then some "perfect"
    else if (ABILITIES.map (fun a => lookup0 abilities a)).sum < 19 then some "incomplete"
    else if ABILITIES.any (fun a => lookup0 abilities a == 9) then some "complete"
    else some "mixed"

/-- The classification as claim C2 words it: identical except that the
"complete" test ranges over every known ability, not only the
non-primary-only ones. -/
def classifyGearClaim (g : Gear) : Option String :=
  match g.calculate_abilities with
  | none => none
  | some abilities =>
    if ABILITIES.any (fun a => lookup0 abilities a == 19) then some "perfect"
    else if (ABILITIES.map (fun a => lookup0 abilities a)).sum < 19 then some "incomplete"
    else if ALL_ABILITIES.any (fun a => lookup0 abilities a == 9) then some "complete"
    else some "mixed"

/-- Number of non-empty secondary slots carrying ability `a`. -/
def countAb (ss : List GearPower) (a : String) : Nat :=
  (ss.filter (fun s => !(pyLower s.name == "unknown") && s.name == a)).length

/-! ### Ledger characterisation lemmas -/

theorem addPoints_eq_none {l : List (String × Int)} {k : String} {n : Int} :
    addPoints l k n = none ↔ dictGet l k = none := by
  induction l with
  | nil => simp [addPoints, dictGet]
  | cons kv rest ih =>
    obtain ⟨k', v⟩ := kv
    by_cases hk : k' = k
    · subst hk
      simp [addPoints, dictGet]
    · simp [addPoints, dictGet, hk, ih]

theorem addPoints_get {l l' : List (String × Int)} {k : String} {n : Int}
    (h : addPoints l k n = some l') :
    ∀ a, dictGet l' a = if a = k then (dictGet l a).map (· + n) else dictGet l a := by
  induction l generalizing l' with
  | nil => simp [addPoints] at h
  | cons kv rest ih =>
    obtain ⟨k', v⟩ := kv
    by_cases hk : k' = k
    · subst hk
      simp only [addPoints, if_pos rfl] at h
      injection h with h
      subst h
      intro a
      by_cases ha : a = k'
      · subst ha
        simp [dictGet]
      · have hne : k' ≠ a := fun he => ha he.symm
        simp [dictGet_cons_ne hne, ha]
    · simp only [addPoints, if_neg hk] at h
      cases hrec : addPoints rest k n with
      | none => rw [hrec] at h; simp at h
      | some r =>
        rw [hrec] at h
        simp only [Option.map_some'] at h
        injection h with h
        subst h
        intro a
        by_cases ha : k' = a
        · have hak : a ≠ k := by
            intro he
            exact hk (ha.trans he)
          rw [ha, dictGet_cons_eq, dictGet_cons_eq, if_neg hak]
        · rw [dictGet_cons_ne ha, dictGet_cons_ne ha, ih hrec a]

theorem addPoints_keys {l l' : List (String × Int)} {k : String} {n : Int}
    (h : addPoints l k n = some l') : dictKeys l' = dictKeys l := by
  induction l generalizing l' with
  | nil => simp [addPoints] at h
  | cons kv rest ih =>
    obtain ⟨k', v⟩ := kv
    by_cases hk : k' = k
    · subst hk
      simp only [addPoints, if_pos rfl] at h
      injection h with h
      subst h
      simp [dictKeys]
    · simp only [addPoints, if_neg hk] at h
      cases hrec : addPoints rest k n with
      | none => rw [hrec] at h; simp at h
      | some r =>
        rw [hrec] at h
        simp only [Option.map_some'] at h
        injection h with h
        subst h
        have := ih hrec
        simp only [dictKeys] at this ⊢
        simp [this]

theorem countAb_cons_skip {s : GearPower} {rest : List GearPower} {a : String}
    (h : ¬(!(pyLower s.name == "unknown") && s.name == a) = true) :
    countAb (s :: rest) a = countAb rest a := by
  simp only [countAb, List.filter]
  rw [Bool.not_eq_true] at h
  simp only [h]

theorem countAb_cons_hit {s : GearPower} {rest : List GearPower} {a : String}
    (h : (!(pyLower s.name == "unknown") && s.name == a) = true) :
    countAb (s :: rest) a = countAb rest a + 1 := by
  simp only [countAb, List.filter, h, List.length_cons]

theorem secondaryLoop_char :
    ∀ (ss : List GearPower) (l l' : List (String × Int)),
      secondaryLoop l ss = some l' →
      dictKeys l' = dictKeys l ∧
        ∀ a, dictGet l' a = (dictGet l a).map (· + 3 * (countAb ss a : Int))
  | [], l, l', h => by
    simp only [secondaryLoop] at h
    injection h with h
    subst h
    refine ⟨rfl, ?_⟩
    intro a
    simp only [countAb, List.filter_nil, List.length_nil, Nat.cast_zero, mul_zero]
    cases dictGet l a <;> simp
  | s :: rest, l, l', h => by
    simp only [secondaryLoop] at h
    by_cases hu : pyLower s.name = "unknown"
    · rw [if_pos hu] at h
      obtain ⟨hkeys, hget⟩ := secondaryLoop_char rest l l' h
      refine ⟨hkeys, ?_⟩
      intro a
      rw [hget a]
      rw [countAb_cons_skip (by simp [hu])]
    · rw [if_neg hu] at h
      cases hadd : addPoints l s.name 3 with
      | none => rw [hadd] at h; simp at h
      | some l₁ =>
        rw [hadd] at h
        obtain ⟨hkeys, hget⟩ := secondaryLoop_char rest l₁ l' h
        have hkeys₁ := addPoints_keys hadd
        refine ⟨hkeys.trans hkeys₁, ?_⟩
        intro a
        rw [hget a, addPoints_get hadd a]
        by_cases ha : a = s.name
        · rw [if_pos ha, countAb_cons_hit (by rw [ha]; simp [hu])]
          cases dictGet l a
          · simp
          · simp
            ring
        · rw [if_neg ha, countAb_cons_skip (by simp [hu]; intro he; exact absurd he.symm ha)]

theorem initLedger_get (a : String) :
    dictGet initLedger a = if a ∈ ALL_ABILITIES then some 0 else none := by
  have : ∀ (ks : List String),
      dictGet (ks.map (fun x => (x, (0 : Int)))) a =
        if a ∈ ks then some 0 else none := by
    intro ks
    induction ks with
    | nil => simp [dictGet]
    | cons k rest ih =>
      by_cases hk : k = a
      · subst hk
        simp [dictGet]
      · simp only [List.map_cons]
        rw [dictGet_cons_ne hk, ih]
        by_cases hmem : a ∈ rest
        · rw [if_pos hmem, if_pos (List.mem_cons_of_mem _ hmem)]
        · rw [if_neg hmem, if_neg ?_]
          intro hcons
          rcases List.mem_cons.mp hcons with h | h
          · exact hk h.symm
          · exact hmem h
  exact this ALL_ABILITIES

theorem initLedger_keys : dictKeys initLedger = ALL_ABILITIES := by
  simp [initLedger, dictKeys, List.map_map]
  rfl

/-- Characterisation of a successfully computed gear ledger: the keys are
exactly the known ability names, and each total is the primary weight (if the
primary matches) plus 3 per matching non-empty secondary slot. -/
theorem gear_calc_char {g : Gear} {L : List (String × Int)}
    (h : g.calculate_abilities = some L) :
    dictKeys L = ALL_ABILITIES ∧
      ∀ a, dictGet L a =
        if a ∈ ALL_ABILITIES then
          some ((if g.primaryGearPower.name = a then 10 else 0) +
            3 * (countAb g.additionalGearPowers a : Int))
        else none := by
  unfold Gear.calculate_abilities at h
  cases hadd : addPoints initLedger g.primaryGearPower.name 10 with
  | none => rw [hadd] at h; simp at h
  | some l =>
    rw [hadd] at h
    obtain ⟨hkeys, hget⟩ := secondaryLoop_char _ _ _ h
    have hkeys₁ := addPoints_keys hadd
    rw [initLedger_keys] at hkeys₁
    refine ⟨hkeys.trans hkeys₁, ?_⟩
    intro a
    rw [hget a, addPoints_get hadd a, initLedger_get a]
    by_cases hmem : a ∈ ALL_ABILITIES
    · by_cases hp : a = g.primaryGearPower.name
      · rw [if_pos hp, if_pos hmem, if_pos hmem, if_pos hp.symm]
        simp
      · rw [if_neg hp, if_pos hmem, if_pos hmem, if_neg (fun he => hp he.symm)]
        simp
    · by_cases hp : a = g.primaryGearPower.name
      · rw [if_pos hp, if_neg hmem, if_neg hmem]
        simp
      · rw [if_neg hp, if_neg hmem, if_neg hmem]
        simp

/-! ### Ledger sum lemmas -/

theorem sum_map_add_int {α : Type} (l : List α) (f g : α → Int) :
    (l.map (fun x => f x + g x)).sum = (l.map f).sum + (l.map g).sum := by
  induction l with
  | nil => simp
  | cons x xs ih =>
    simp only [List.map_cons, List.sum_cons, ih]
    ring

theorem sum_map_mul_int {α : Type} (l : List α) (c : Int) (f : α → Int) :
    (l.map (fun x => c * f x)).sum = c * (l.map f).sum := by
  induction l with
  | nil => simp
  | cons x xs ih =>
    simp only [List.map_cons, List.sum_cons, ih]
    ring

theorem sum_map_ite_eq {ks : List String} (hnd : ks.Nodup) (p : String) (c : Int) :
    (ks.map (fun a => if p = a then c else 0)).sum = if p ∈ ks then c else 0 := by
  induction ks with
  | nil => simp
  | cons k rest ih =>
    have hnd' : rest.Nodup := hnd.of_cons
    by_cases hp : p = k
    · subst hp
      have hnot : p ∉ rest := (List.nodup_cons.mp hnd).1
      simp [ih hnd', hnot]
    · simp only [List.map_cons, List.sum_cons, if_neg hp, ih hnd']
      by_cases hmem : p ∈ rest
      · rw [if_pos hmem, if_pos (List.mem_cons_of_mem _ hmem)]
        ring
      · rw [if_neg hmem, if_neg ?_]
        · ring
        · intro hcons
          rcases List.mem_cons.mp hcons with h | h
          · exact hp h
          · exact hmem h

theorem countAb_cons (s : GearPower) (rest : List GearPower) (a : String) :
    countAb (s :: rest) a =
      countAb rest a +
        (if (!(pyLower s.name == "unknown") && s.name == a) = true then 1 else 0) := by
  by_cases hc : (!(pyLower s.name == "unknown") && s.name == a) = true
  · rw [countAb_cons_hit hc, if_pos hc]
  · rw [countAb_cons_skip hc, if_neg hc]
    simp

theorem secPred_true {s : GearPower} (hu : ¬pyLower s.name = "unknown") {a : String}
    (hn : s.name = a) :
    (!(pyLower s.name == "unknown") && s.name == a) = true := by
  have h1 : (pyLower s.name == "unknown") = false := by
    simp [hu]
  have h2 : (s.name == a) = true := by
    simp [hn]
  rw [h1, h2]
  rfl

theorem secPred_false_of_name {s : GearPower} {a : String} (hn : s.name ≠ a) :
    (!(pyLower s.name == "unknown") && s.name == a) = false := by
  have h2 : (s.name == a) = false := by
    simp [hn]
  simp [h2]

theorem secPred_false_of_unknown {s : GearPower} (hu : pyLower s.name = "unknown")
    (a : String) :
    (!(pyLower s.name == "unknown") && s.name == a) = false := by
  have h1 : (pyLower s.name == "unknown") = true := by
    simp [hu]
  simp [h1]

/-- Summing the per-name secondary-slot counts over a duplicate-free name list
counts the non-empty secondary slots whose name lies in the list. -/
theorem sum_countAb {ks : List String} (hnd : ks.Nodup) :
    ∀ ss : List GearPower,
      (ks.map (fun a => (countAb ss a : Int))).sum =
        ((ss.filter (fun s =>
          !(pyLower s.name == "unknown") && decide (s.name ∈ ks))).length : Int)
  | [] => by simp [countAb]
  | s :: rest => by
    have hrec := sum_countAb hnd rest
    have hsplit :
        (ks.map (fun a => (countAb (s :: rest) a : Int))).sum =
          (ks.map (fun a => (countAb rest a : Int))).sum +
            (ks.map (fun a =>
              if (!(pyLower s.name == "unknown") && s.name == a) = true
              then (1 : Int) else 0)).sum := by
      rw [← sum_map_add_int]
      apply congrArg List.sum
      apply List.map_congr_left
      intro a _
      rw [countAb_cons]
      by_cases hc : (!(pyLower s.name == "unknown") && s.name == a) = true
      · rw [if_pos hc, if_pos hc]
        push_cast
        ring
      · rw [if_neg hc, if_neg hc]
        push_cast
        ring
    rw [hsplit, hrec]
    by_cases hu : pyLower s.name = "unknown"
    · have hzero :
          (ks.map (fun a =>
            if (!(pyLower s.name == "unknown") && s.name == a) = true
            then (1 : Int) else 0)).sum = 0 := by
        have hall : ∀ a ∈ ks,
            (if (!(pyLower s.name == "unknown") && s.name == a) = true
             then (1 : Int) else 0) = 0 := by
          intro a _
          rw [if_neg]
          rw [secPred_false_of_unknown hu a]
          simp
        rw [List.map_congr_left hall]
        simp
      rw [hzero]
      have hfilter :
          List.filter (fun s' =>
            !(pyLower s'.name == "unknown") && decide (s'.name ∈ ks)) (s :: rest) =
          List.filter (fun s' =>
            !(pyLower s'.name == "unknown") && decide (s'.name ∈ ks)) rest := by
        simp only [List.filter]
        have hc : (!(pyLower s.name == "unknown") && decide (s.name ∈ ks)) = false := by
          have h1 : (pyLower s.name == "unknown") = true := by
            simp [hu]
          simp [h1]
        simp only [hc]
      rw [hfilter]
      ring
    · have hone :
          (ks.map (fun a =>
            if (!(pyLower s.name == "unknown") && s.name == a) = true
            then (1 : Int) else 0)).sum = if s.name ∈ ks then 1 else 0 := by
        have hall : ∀ a ∈ ks,
            (if (!(pyLower s.name == "unknown") && s.name == a) = true
             then (1 : Int) else 0) = if s.name = a then 1 else 0 := by
          intro a _
          by_cases hn : s.name = a
          · rw [if_pos hn, if_pos (secPred_true hu hn)]
          · rw [if_neg hn, if_neg]
            rw [secPred_false_of_name hn]
            simp
        rw [List.map_congr_left hall, sum_map_ite_eq hnd]
      rw [hone]
      by_cases hmem : s.name ∈ ks
      · have hfilter :
            List.filter (fun s' =>
              !(pyLower s'.name == "unknown") && decide (s'.name ∈ ks)) (s :: rest) =
            s :: List.filter (fun s' =>
              !(pyLower s'.name == "unknown") && decide (s'.name ∈ ks)) rest := by
          simp only [List.filter]
          have hc : (!(pyLower s.name == "unknown") && decide (s.name ∈ ks)) = true := by
            have h1 : (pyLower s.name == "unknown") = false := by
              simp [hu]
            simp [h1, hmem]
          simp only [hc]
        rw [hfilter, if_pos hmem]
        simp only [List.length_cons]
        push_cast
        ring
      · have hfilter :
            List.filter (fun s' =>
              !(pyLower s'.name == "unknown") && decide (s'.name ∈ ks)) (s :: rest) =
            List.filter (fun s' =>
              !(pyLower s'.name == "unknown") && decide (s'.name ∈ ks)) rest := by
          simp only [List.filter]
          have hc : (!(pyLower s.name == "unknown") && decide (s.name ∈ ks)) = false := by
            simp [hmem]
          simp only [hc]
        rw [hfilter, if_neg hmem]
        ring

/-! ### Existence of the gear ledger for known names -/

theorem secondaryLoop_isSome :
    ∀ (ss : List GearPower) (l : List (String × Int)),
      (∀ s ∈ ss, pyLower s.name = "unknown" ∨ s.name ∈ dictKeys l) →
      ∃ l', secondaryLoop l ss = some l'
  | [], l, _ => ⟨l, rfl⟩
  | s :: rest, l, h => by
    by_cases hu : pyLower s.name = "unknown"
    · obtain ⟨l', hl'⟩ := secondaryLoop_isSome rest l
        (fun s' hs' => h s' (List.mem_cons_of_mem _ hs'))
      exact ⟨l', by simp only [secondaryLoop, if_pos hu]; exact hl'⟩
    · have hmem : s.name ∈ dictKeys l := by
        rcases h s (List.mem_cons_self _ _) with hcase | hcase
        · exact absurd hcase hu
        · exact hcase
      cases hadd : addPoints l s.name 3 with
      | none =>
        have := addPoints_eq_none.mp hadd
        have := dictGet_isSome_of_mem_keys hmem
        simp_all
      | some l₁ =>
        have hkeys := addPoints_keys hadd
        obtain ⟨l', hl'⟩ := secondaryLoop_isSome rest l₁ (by
          intro s' hs'
          rcases h s' (List.mem_cons_of_mem _ hs') with hcase | hcase
          · exact Or.inl hcase
          · exact Or.inr (hkeys ▸ hcase))
        refine ⟨l', ?_⟩
        simp only [secondaryLoop, if_neg hu, hadd]
        exact hl'

theorem gear_calc_isSome {g : Gear}
    (hp : g.primaryGearPower.name ∈ ALL_ABILITIES)
    (hs : ∀ s ∈ g.additionalGearPowers,
      pyLower s.name = "unknown" ∨ s.name ∈ ALL_ABILITIES) :
    ∃ L, g.calculate_abilities = some L := by
  unfold Gear.calculate_abilities
  cases hadd : addPoints initLedger g.primaryGearPower.name 10 with
  | none =>
    have h1 := addPoints_eq_none.mp hadd
    have h2 := dictGet_isSome_of_mem_keys (l := initLedger)
      (by rw [initLedger_keys]; exact hp)
    simp_all
  | some l =>
    have hkeys := addPoints_keys hadd
    rw [initLedger_keys] at hkeys
    obtain ⟨l', hl'⟩ := secondaryLoop_isSome g.additionalGearPowers l (by
      intro s' hs'
      rcases hs s' hs' with hcase | hcase
      · exact Or.inl hcase
      · exact Or.inr (hkeys ▸ hcase))
    exact ⟨l', hl'⟩

/-! ### Sums of ledger totals over ability-name lists -/

theorem lookup0_eq {g : Gear} {L : List (String × Int)}
    (h : g.calculate_abilities = some L) {a : String} (ha : a ∈ ALL_ABILITIES) :
    lookup0 L a =
      (if g.primaryGearPower.name = a then 10 else 0) +
        3 * (countAb g.additionalGearPowers a : Int) := by
  obtain ⟨_, hget⟩ := gear_calc_char h
  rw [lookup0, hget a, if_pos ha]
  rfl

/-- Sum of ledger totals over a duplicate-free list of known ability names. -/
theorem sum_lookup0 {g : Gear} {L : List (String × Int)}
    (h : g.calculate_abilities = some L) {ks : List String} (hnd : ks.Nodup)
    (hsub : ∀ a ∈ ks, a ∈ ALL_ABILITIES) :
    (ks.map (fun a => lookup0 L a)).sum =
      (if g.primaryGearPower.name ∈ ks then 10 else 0) +
        3 * ((g.additionalGearPowers.filter (fun s =>
          !(pyLower s.name == "unknown") && decide (s.name ∈ ks))).length : Int) := by
  have hpt : ∀ a ∈ ks,
      lookup0 L a =
        (if g.primaryGearPower.name = a then 10 else 0) +
          3 * (countAb g.additionalGearPowers a : Int) := by
    intro a ha
    exact lookup0_eq h (hsub a ha)
  rw [List.map_congr_left hpt, sum_map_add_int, sum_map_ite_eq hnd]
  have : (ks.map (fun a => 3 * (countAb g.additionalGearPowers a : Int))).sum =
      3 * (ks.map (fun a => (countAb g.additionalGearPowers a : Int))).sum :=
    sum_map_mul_int ks 3 _
  rw [this, sum_countAb hnd]

theorem all_of_filter_length_eq {α : Type} {p : α → Bool} :
    ∀ {l : List α}, (l.filter p).length = l.length → ∀ x ∈ l, p x
  | [], _, x, hx => by simp at hx
  | a :: l, h, x, hx => by
    by_cases hpa : p a
    · simp only [List.filter, hpa, List.length_cons] at h
      rcases List.mem_cons.mp hx with hcase | hcase
    -- first the head, then the tail via recursion
      · exact hcase ▸ hpa
      · exact all_of_filter_length_eq (Nat.succ.inj h) x hcase
    · exfalso
      have hle := List.length_filter_le p l
      have hfa : List.filter p (a :: l) = List.filter p l := by
        simp only [List.filter]
        rw [Bool.not_eq_true] at hpa
        simp only [hpa]
      rw [hfa, List.length_cons] at h
      omega

theorem primary_only_disjoint : ∀ a ∈ PRIMARY_ONLY, a ∉ ABILITIES := by decide

theorem abilities_nodup : ABILITIES.Nodup := by decide

theorem all_abilities_nodup : ALL_ABILITIES.Nodup := by decide

theorem abilities_sub_all : ∀ a ∈ ABILITIES, a ∈ ALL_ABILITIES := by
  intro a ha
  exact List.mem_append_right _ ha

/-! ### Claim C2: gear classification -/

/-- Under the constraints above, a primary-only ability can never total 9
points while the non-primary-only totals reach the per-item maximum. -/
theorem no_primary_only_nine {g : Gear} {L : List (String × Int)}
    (hL : g.calculate_abilities = some L)
    (h3 : g.additionalGearPowers.length ≤ 3)
    (hsum : ¬(ABILITIES.map (fun a => lookup0 L a)).sum < 19) :
    PRIMARY_ONLY.any (fun a => lookup0 L a == 9) = false := by
  by_contra hany
  rw [Bool.not_eq_false, List.any_eq_true] at hany
  obtain ⟨a, haP, hbeq⟩ := hany
  have ha9 : lookup0 L a = 9 := by
    exact eq_of_beq hbeq
  have haAll : a ∈ ALL_ABILITIES := List.mem_append_left _ haP
  rw [lookup0_eq hL haAll] at ha9
  by_cases hp : g.primaryGearPower.name = a
  · rw [if_pos hp] at ha9
    omega
  · rw [if_neg hp] at ha9
    have hcount : countAb g.additionalGearPowers a = 3 := by omega
    -- the three secondary slots must all carry ability `a`
    have hlen : (g.additionalGearPowers.filter (fun s =>
        !(pyLower s.name == "unknown") && s.name == a)).length =
        g.additionalGearPowers.length := by
      have h1 : (g.additionalGearPowers.filter (fun s =>
          !(pyLower s.name == "unknown") && s.name == a)).length ≤
          g.additionalGearPowers.length := List.length_filter_le _ _
      have h2 := hcount
      unfold countAb at h2
      omega
    have hallsec := all_of_filter_length_eq hlen
    -- hence no secondary slot carries a non-primary-only ability
    have hsum' := sum_lookup0 hL abilities_nodup abilities_sub_all
    have hfilter_nil : (g.additionalGearPowers.filter (fun s =>
        !(pyLower s.name == "unknown") && decide (s.name ∈ ABILITIES))) = [] := by
      rw [List.filter_eq_nil_iff]
      intro s hsmem
      have := hallsec s hsmem
      have hname : s.name = a := by
        have h2 : (s.name == a) = true := by
          cases hb : (s.name == a)
          · rw [hb] at this
            simp at this
          · rfl
        exact eq_of_beq h2
      have hnotA : s.name ∉ ABILITIES := by
        rw [hname]
        exact primary_only_disjoint a haP
      simp [hnotA]
    rw [hfilter_nil] at hsum'
    simp only [List.length_nil, Nat.cast_zero, mul_zero, add_zero] at hsum'
    by_cases hpA : g.primaryGearPower.name ∈ ABILITIES
    · rw [if_pos hpA] at hsum'
      omega
    · rw [if_neg hpA] at hsum'
      omega

/-- Claim C2: `classify_gear` agrees with the claim's description (evaluated
in the strict order perfect, incomplete, complete, mixed with first match
winning, where "complete" may range over every known ability), and always
produces one of the four category strings. -/
theorem claim_C2 (g : Gear) (h3 : g.additionalGearPowers.length ≤ 3) :
    g.classify_gear = classifyGearClaim g ∧
      ∀ r, g.classify_gear = some r →
        r = "perfect" ∨ r = "incomplete" ∨ r = "complete" ∨ r = "mixed" := by
  constructor
  · cases hL : g.calculate_abilities with
    | none => simp [Gear.classify_gear, classifyGearClaim, hL]
    | some L =>
      simp only [Gear.classify_gear, classifyGearClaim, hL]
      by_cases h1 : ABILITIES.any (fun a => lookup0 L a == 19)
      · rw [if_pos h1, if_pos h1]
      · rw [if_neg h1, if_neg h1]
        by_cases h2 : (ABILITIES.map (fun a => lookup0 L a)).sum < 19
        · rw [if_pos h2, if_pos h2]
        · rw [if_neg h2, if_neg h2]
          have hPfalse := no_primary_only_nine hL h3 h2
          have hsplit : ALL_ABILITIES.any (fun a => lookup0 L a == 9) =
              (PRIMARY_ONLY.any (fun a => lookup0 L a == 9) ||
                ABILITIES.any (fun a => lookup0 L a == 9)) := by
            rw [ALL_ABILITIES, List.any_append]
          rw [hsplit, hPfalse, Bool.false_or]
  · intro r hr
    unfold Gear.classify_gear at hr
    cases hL : g.calculate_abilities with
    | none => rw [hL] at hr; simp at hr
    | some L =>
      rw [hL] at hr
      simp only at hr
      split_ifs at hr <;> (injection hr with hr; subst hr; tauto)

def gearC2 : Gear := ⟨"Zink Layered LS", ⟨"Ink Saver (Main)"⟩, [⟨"Run Speed Up"⟩]⟩

/-- Witness for claim C2 at a concrete one-secondary gear item. -/
theorem claim_C2_witness :
    gearC2.additionalGearPowers.length ≤ 3 ∧
      gearC2.classify_gear = some "incomplete" ∧
      (gearC2.classify_gear = classifyGearClaim gearC2 ∧
        ∀ r, gearC2.classify_gear = some r →
          r = "perfect" ∨ r = "incomplete" ∨ r = "complete" ∨ r = "mixed") :=
  ⟨by decide, by rfl, claim_C2 gearC2 (by decide)⟩

/-! ### Claim C3: per-item ability ledger totals -/

/-- Claim C3: for an item whose primary ability is known and whose secondary
slots are known or empty ("unknown"), with `k` non-empty secondary slots,
`0 ≤ k ≤ 3`: the ledger has an entry for every known ability, all values are
nonnegative, the primary is credited 10 and each non-empty secondary slot 3
(empty slots credit nothing), and the values sum to `10 + 3 * k`. -/
theorem claim_C3 (g : Gear)
    (hp : g.primaryGearPower.name ∈ ALL_ABILITIES)
    (hs : ∀ s ∈ g.additionalGearPowers,
      pyLower s.name = "unknown" ∨ s.name ∈ ALL_ABILITIES)
    (_hk : (g.additionalGearPowers.filter
      (fun s => !(pyLower s.name == "unknown"))).length ≤ 3) :
    ∃ L, g.calculate_abilities = some L ∧
      (∀ a ∈ ALL_ABILITIES, ∃ v, dictGet L a = some v ∧ 0 ≤ v) ∧
      (∀ a ∈ ALL_ABILITIES, dictGet L a =
        some ((if g.primaryGearPower.name = a then 10 else 0) +
          3 * (countAb g.additionalGearPowers a : Int))) ∧
      (L.map Prod.snd).sum =
        10 + 3 * ((g.additionalGearPowers.filter
          (fun s => !(pyLower s.name == "unknown"))).length : Int) := by
  obtain ⟨L, hL⟩ := gear_calc_isSome hp hs
  obtain ⟨hkeys, hget⟩ := gear_calc_char hL
  refine ⟨L, hL, ?_, ?_, ?_⟩
  · intro a ha
    refine ⟨(if g.primaryGearPower.name = a then 10 else 0) +
      3 * (countAb g.additionalGearPowers a : Int), ?_, ?_⟩
    · rw [hget a, if_pos ha]
    · by_cases hpa : g.primaryGearPower.name = a
      · rw [if_pos hpa]
        positivity
      · rw [if_neg hpa]
        positivity
  · intro a ha
    rw [hget a, if_pos ha]
  · have hLmap : L = ALL_ABILITIES.map (fun a =>
        (a, (if g.primaryGearPower.name = a then 10 else 0) +
          3 * (countAb g.additionalGearPowers a : Int))) := by
      apply assoc_eq_map_of_keys L ALL_ABILITIES _ hkeys all_abilities_nodup
      intro a ha
      rw [hget a, if_pos ha]
    have hvals : L.map Prod.snd = ALL_ABILITIES.map (fun a =>
        (if g.primaryGearPower.name = a then 10 else 0) +
          3 * (countAb g.additionalGearPowers a : Int)) := by
      rw [hLmap, List.map_map]
      rfl
    rw [hvals, sum_map_add_int, sum_map_ite_eq all_abilities_nodup,
      sum_map_mul_int, sum_countAb all_abilities_nodup, if_pos hp]
    have hfeq : List.filter (fun s =>
        !(pyLower s.name == "unknown") && decide (s.name ∈ ALL_ABILITIES))
        g.additionalGearPowers =
        List.filter (fun s => !(pyLower s.name == "unknown"))
        g.additionalGearPowers := by
      apply List.filter_congr
      intro s hsmem
      rcases hs s hsmem with hcase | hcase
      · have h1 : (pyLower s.name == "unknown") = true := by
          simp [hcase]
        simp [h1]
      · simp [hcase]
    rw [hfeq]

def gearC3 : Gear :=
  ⟨"Fresh Fish Head", ⟨"Ink Recovery Up"⟩,
    [⟨"Ink Saver (Main)"⟩, ⟨"Unknown"⟩, ⟨"Run Speed Up"⟩]⟩

/-- Witness for claim C3 at a concrete gear item with one empty slot. -/
theorem claim_C3_witness :
    (gearC3.primaryGearPower.name ∈ ALL_ABILITIES ∧
      (∀ s ∈ gearC3.additionalGearPowers,
        pyLower s.name = "unknown" ∨ s.name ∈ ALL_ABILITIES) ∧
      (gearC3.additionalGearPowers.filter
        (fun s => !(pyLower s.name == "unknown"))).length ≤ 3) ∧
      (∃ L, gearC3.calculate_abilities = some L ∧
        (∀ a ∈ ALL_ABILITIES, ∃ v, dictGet L a = some v ∧ 0 ≤ v) ∧
        (∀ a ∈ ALL_ABILITIES, dictGet L a =
          some ((if gearC3.primaryGearPower.name = a then 10 else 0) +
            3 * (countAb gearC3.additionalGearPowers a : Int))) ∧
        (L.map Prod.snd).sum =
          10 + 3 * ((gearC3.additionalGearPowers.filter
            (fun s => !(pyLower s.name == "unknown"))).length : Int)) :=
  ⟨⟨by decide, by decide, by decide⟩,
    claim_C3 gearC3 (by decide) (by decide) (by decide)⟩

/-! ## Player ability ledgers (`playerSchema.calculate_abilities`) -/

/-- A player (`playerSchema`); byname/nameplate/id are irrelevant to the
ability computations and summaries and are omitted. -/
structure Player where
  name : String
  nameId : String
  headGear : Gear
  clothingGear : Gear
  shoesGear : Gear
  paint : Int
deriving DecidableEq

/-- The inner `for ability, value in gear_abilities.items()` loop. -/
def addItems : List (String × Int) → List (String × Int) → Option (List (String × Int))
  | acc, [] => some acc
  | acc, (k, v) :: rest =>
    match addPoints acc k v with
    | none => none
    | some acc' => addItems acc' rest

/-- The outer `for gear in [self.headGear, self.clothingGear, self.shoesGear]`
loop. -/
def gearLoop : List (String × Int) → List Gear → Option (List (String × Int))
  | acc, [] => some acc
  | acc, g :: rest =>
    match g.calculate_abilities with
    | none => none
    | some ga =>
      match addItems acc ga with
      | none => none
      | some acc' => gearLoop acc' rest

/-- The sort key of `sorted(abilities.items(), key=(value, name), reverse=True)`:
`x` sorts no later than `y` iff `x`'s value is larger, or the values tie and
`x`'s name is not smaller. -/
def sortRel : (String × Int) → (String × Int) → Prop := fun x y =>
  y.2 < x.2 ∨ (x.2 = y.2 ∧ ¬x.1 < y.1)

instance : DecidableRel sortRel := fun x y => by
  unfold sortRel
  infer_instance

instance : IsTotal (String × Int) sortRel :=
  ⟨by
    intro x y
    rcases lt_trichotomy x.2 y.2 with h | h | h
    · exact Or.inr (Or.inl h)
    · rcases le_total x.1 y.1 with hn | hn
      · exact Or.inr (Or.inr ⟨h.symm, not_lt.mpr hn⟩)
      · exact Or.inl (Or.inr ⟨h, not_lt.mpr hn⟩)
    · exact Or.inl (Or.inl h)⟩

instance : IsTrans (String × Int) sortRel :=
  ⟨by
    intro x y z hxy hyz
    rcases hxy with h1 | ⟨h1, h1'⟩
    · rcases hyz with h2 | ⟨h2, _⟩
      · exact Or.inl (h2.trans h1)
      · exact Or.inl (h2 ▸ h1)
    · rcases hyz with h2 | ⟨h2, h2'⟩
      · exact Or.inl (h1 ▸ h2)
      · exact Or.inr ⟨h1.trans h2,
          not_lt.mpr (le_trans (not_lt.mp h2') (not_lt.mp h1'))⟩⟩

/-- `playerSchema.calculate_abilities`: sum the three per-item ledgers, sort
descending by (value, name), and keep the strictly positive entries. -/
def Player.calculate_abilities (p : Player) : Option (List (String × Int)) :=
  match gearLoop initLedger [p.headGear, p.clothingGear, p.shoesGear] with
  | none => none
  | some abilities =>
    some ((List.insertionSort sortRel abilities).filter (fun x => decide (0 < x.2)))

/-- The three per-item ledgers, if they all compute. -/
def ledgersOf : List Gear → Option (List (List (String × Int)))
  | [] => some []
  | g :: rest =>
    match g.calculate_abilities with
    | none => none
    | some L => (ledgersOf rest).map (L :: ·)

theorem addItems_char :
    ∀ (items acc res : List (String × Int)),
      addItems acc items = some res → (dictKeys items).Nodup →
      dictKeys res = dictKeys acc ∧
        ∀ a, dictGet res a = (dictGet acc a).map (· + (dictGet items a).getD 0)
  | [], acc, res, h, _ => by
    simp only [addItems] at h
    injection h with h
    subst h
    refine ⟨rfl, ?_⟩
    intro a
    simp only [dictGet]
    cases dictGet acc a <;> simp
  | (k, v) :: rest, acc, res, h, hnd => by
    simp only [addItems] at h
    cases hadd : addPoints acc k v with
    | none => rw [hadd] at h; simp at h
    | some acc₁ =>
      rw [hadd] at h
      have hnd0 : (k :: dictKeys rest).Nodup := hnd
      have hndrest : (dictKeys rest).Nodup := hnd0.of_cons
      obtain ⟨hkeys, hget⟩ := addItems_char rest acc₁ res h hndrest
      have hknot : k ∉ dictKeys rest := (List.nodup_cons.mp hnd0).1
      refine ⟨hkeys.trans (addPoints_keys hadd), ?_⟩
      intro a
      rw [hget a, addPoints_get hadd a]
      by_cases ha : a = k
      · subst ha
        rw [if_pos rfl, dictGet_cons_eq,
          dictGet_none_of_not_mem_keys hknot]
        cases dictGet acc a <;> simp
      · rw [if_neg ha, dictGet_cons_ne (fun he => ha he.symm)]

theorem gearLoop_char :
    ∀ (gs : List Gear) (acc res : List (String × Int)),
      gearLoop acc gs = some res → dictKeys acc = ALL_ABILITIES →
      ∃ Ls, ledgersOf gs = some Ls ∧
        dictKeys res = dictKeys acc ∧
        ∀ a, dictGet res a =
          (dictGet acc a).map (· + (Ls.map (fun L => (dictGet L a).getD 0)).sum)
  | [], acc, res, h, _ => by
    simp only [gearLoop] at h
    injection h with h
    subst h
    refine ⟨[], rfl, rfl, ?_⟩
    intro a
    cases dictGet acc a <;> simp
  | g :: rest, acc, res, h, hacc => by
    simp only [gearLoop] at h
    cases hg : g.calculate_abilities with
    | none => rw [hg] at h; simp at h
    | some ga =>
      rw [hg] at h
      have h2 : (match addItems acc ga with
        | none => none
        | some acc' => gearLoop acc' rest) = some res := h
      cases hadd : addItems acc ga with
      | none => rw [hadd] at h2; simp at h2
      | some acc₁ =>
        rw [hadd] at h2
        have hgand : (dictKeys ga).Nodup := by
          rw [(gear_calc_char hg).1]
          exact all_abilities_nodup
        obtain ⟨hkeys₁, hget₁⟩ := addItems_char ga acc acc₁ hadd hgand
        obtain ⟨Ls, hLs, hkeys, hget⟩ := gearLoop_char rest acc₁ res h2
          (hkeys₁.trans hacc)
        refine ⟨ga :: Ls, ?_, hkeys.trans hkeys₁, ?_⟩
        · simp only [ledgersOf, hg, hLs, Option.map_some']
        · intro a
          rw [hget a, hget₁ a]
          cases dictGet acc a
          · simp
          · simp only [Option.map_some', List.map_cons, List.sum_cons]
            congr 1
            ring

theorem mem_iff_dictGet {α : Type} {l : List (String × α)}
    (hnd : (dictKeys l).Nodup) {a : String} {v : α} :
    (a, v) ∈ l ↔ dictGet l a = some v := by
  constructor
  · intro hmem
    induction l with
    | nil => simp at hmem
    | cons kv rest ih =>
      obtain ⟨k', v'⟩ := kv
      rcases List.mem_cons.mp hmem with hcase | hcase
      · injection hcase with h1 h2
        subst h1
        subst h2
        exact dictGet_cons_eq
      · have hnd0 : (k' :: dictKeys rest).Nodup := hnd
        have hk'ne : k' ≠ a := by
          intro he
          subst he
          have hmem' : k' ∈ dictKeys rest := by
            simp only [dictKeys]
            exact List.mem_map_of_mem Prod.fst hcase
          exact (List.nodup_cons.mp hnd0).1 hmem'
        rw [dictGet_cons_ne hk'ne]
        exact ih hnd0.of_cons hcase
  · exact dictGet_mem

theorem lookup0_nonneg {g : Gear} {L : List (String × Int)}
    (h : g.calculate_abilities = some L) (a : String) : 0 ≤ lookup0 L a := by
  obtain ⟨_, hget⟩ := gear_calc_char h
  unfold lookup0
  rw [hget a]
  by_cases ha : a ∈ ALL_ABILITIES
  · rw [if_pos ha]
    simp only [Option.getD_some]
    by_cases hp : g.primaryGearPower.name = a
    · rw [if_pos hp]; positivity
    · rw [if_neg hp]; positivity
  · rw [if_neg ha]
    simp

theorem ledgersOf_cons {g : Gear} {gs : List Gear} {Ls : List (List (String × Int))}
    (h : ledgersOf (g :: gs) = some Ls) :
    ∃ L Ls', g.calculate_abilities = some L ∧ ledgersOf gs = some Ls' ∧
      Ls = L :: Ls' := by
  unfold ledgersOf at h
  cases hg : g.calculate_abilities with
  | none => rw [hg] at h; simp at h
  | some L =>
    rw [hg] at h
    have h2 : (ledgersOf gs).map (L :: ·) = some Ls := h
    cases hrest : ledgersOf gs with
    | none => rw [hrest] at h2; simp at h2
    | some Ls' =>
      rw [hrest] at h2
      simp only [Option.map_some', Option.some.injEq] at h2
      exact ⟨L, Ls', rfl, rfl, h2.symm⟩

/-- Claim C4: a successfully computed player ledger holds exactly the known
abilities whose pointwise three-item sum is nonzero, with that sum as value,
and is strictly descending by value with ties broken by descending name. -/
theorem claim_C4 (p : Player) (out : List (String × Int))
    (h : p.calculate_abilities = some out) :
    ∃ Lh Lc Lsh,
      p.headGear.calculate_abilities = some Lh ∧
      p.clothingGear.calculate_abilities = some Lc ∧
      p.shoesGear.calculate_abilities = some Lsh ∧
      (∀ a v, (a, v) ∈ out ↔
        (a ∈ ALL_ABILITIES ∧ v = lookup0 Lh a + lookup0 Lc a + lookup0 Lsh a ∧
          v ≠ 0)) ∧
      out.Pairwise (fun x y => y.2 < x.2 ∨ (x.2 = y.2 ∧ y.1 < x.1)) := by
  unfold Player.calculate_abilities at h
  cases hloop : gearLoop initLedger [p.headGear, p.clothingGear, p.shoesGear] with
  | none => rw [hloop] at h; simp at h
  | some L =>
    rw [hloop] at h
    simp only [Option.some.injEq] at h
    obtain ⟨Ls, hLs, hkeys, hget⟩ := gearLoop_char _ _ _ hloop initLedger_keys
    obtain ⟨Lh, Ls1, hLh, hLs1, hEq1⟩ := ledgersOf_cons hLs
    obtain ⟨Lc, Ls2, hLc, hLs2, hEq2⟩ := ledgersOf_cons hLs1
    obtain ⟨Lsh, Ls3, hLsh, hLs3, hEq3⟩ := ledgersOf_cons hLs2
    have hLs3nil : Ls3 = [] := by
      unfold ledgersOf at hLs3
      injection hLs3 with h3
      exact h3.symm
    subst hLs3nil
    subst hEq3
    subst hEq2
    subst hEq1
    have hkeysL : dictKeys L = ALL_ABILITIES := hkeys.trans initLedger_keys
    have hndL : (dictKeys L).Nodup := by
      rw [hkeysL]
      exact all_abilities_nodup
    have hgetL : ∀ a, dictGet L a =
        if a ∈ ALL_ABILITIES then
          some (lookup0 Lh a + lookup0 Lc a + lookup0 Lsh a)
        else none := by
      intro a
      rw [hget a, initLedger_get a]
      by_cases ha : a ∈ ALL_ABILITIES
      · rw [if_pos ha, if_pos ha]
        simp only [Option.map_some', lookup0]
        congr 1
        simp only [List.map_cons, List.map_nil, List.sum_cons, List.sum_nil]
        ring
      · rw [if_neg ha, if_neg ha]
        simp
    have hnonneg : ∀ a, 0 ≤ lookup0 Lh a + lookup0 Lc a + lookup0 Lsh a := by
      intro a
      have h1 := lookup0_nonneg hLh a
      have h2 := lookup0_nonneg hLc a
      have h3 := lookup0_nonneg hLsh a
      omega
    refine ⟨Lh, Lc, Lsh, hLh, hLc, hLsh, ?_, ?_⟩
    · intro a v
      rw [← h]
      rw [List.mem_filter, List.mem_insertionSort, mem_iff_dictGet hndL, hgetL a]
      constructor
      · rintro ⟨hsome, hpos⟩
        by_cases ha : a ∈ ALL_ABILITIES
        · rw [if_pos ha] at hsome
          injection hsome with hsome
          refine ⟨ha, hsome.symm, ?_⟩
          simp only [decide_eq_true_eq] at hpos
          omega
        · rw [if_neg ha] at hsome
          cases hsome
      · rintro ⟨ha, hv, hne⟩
        rw [if_pos ha]
        refine ⟨by rw [hv], ?_⟩
        simp only [decide_eq_true_eq]
        have := hnonneg a
        omega
    · rw [← h]
      have hsout : List.Sorted sortRel
          ((List.insertionSort sortRel L).filter (fun x => decide (0 < x.2))) :=
        (List.sorted_insertionSort sortRel L).filter _
      have hndout : (((List.insertionSort sortRel L).filter
          (fun x => decide (0 < x.2))).map Prod.fst).Nodup := by
        have hperm : List.Perm (List.insertionSort sortRel L) L :=
          List.perm_insertionSort sortRel L
        have hnds : ((List.insertionSort sortRel L).map Prod.fst).Nodup :=
          ((hperm.map Prod.fst).nodup_iff).mpr hndL
        have hsub : List.Sublist
            (((List.insertionSort sortRel L).filter
              (fun x => decide (0 < x.2))).map Prod.fst)
            ((List.insertionSort sortRel L).map Prod.fst) :=
          List.Sublist.map Prod.fst (List.filter_sublist _)
        exact hnds.sublist hsub
      have hne : ((List.insertionSort sortRel L).filter
          (fun x => decide (0 < x.2))).Pairwise (fun x y => x.1 ≠ y.1) :=
        List.pairwise_map.mp hndout
      refine (hsout.and hne).imp (fun hxy => ?_)
      obtain ⟨hr, hneq⟩ := hxy
      rcases hr with hlt | ⟨heq, hnlt⟩
      · exact Or.inl hlt
      · exact Or.inr ⟨heq, lt_of_le_of_ne (not_lt.mp hnlt) (Ne.symm hneq)⟩

def playerC4 : Player :=
  ⟨"Joy", "1584",
    ⟨"Head", ⟨"Ink Recovery Up"⟩, [⟨"Ink Saver (Main)"⟩, ⟨"Unknown"⟩, ⟨"Run Speed Up"⟩]⟩,
    ⟨"Clothes", ⟨"Comeback"⟩, []⟩,
    ⟨"Shoes", ⟨"Ink Saver (Main)"⟩,
      [⟨"Ink Saver (Main)"⟩, ⟨"Ink Saver (Main)"⟩, ⟨"Ink Saver (Main)"⟩]⟩,
    1073⟩

def outC4 : List (String × Int) := (playerC4.calculate_abilities).getD []

/-- Witness for claim C4 at a concrete player. -/
theorem claim_C4_witness :
    playerC4.calculate_abilities = some outC4 ∧
      ∃ Lh Lc Lsh,
        playerC4.headGear.calculate_abilities = some Lh ∧
        playerC4.clothingGear.calculate_abilities = some Lc ∧
        playerC4.shoesGear.calculate_abilities = some Lsh ∧
        (∀ a v, (a, v) ∈ outC4 ↔
          (a ∈ ALL_ABILITIES ∧ v = lookup0 Lh a + lookup0 Lc a + lookup0 Lsh a ∧
            v ≠ 0)) ∧
        outC4.Pairwise (fun x y => y.2 < x.2 ∨ (x.2 = y.2 ∧ y.1 < x.1)) :=
  ⟨rfl, claim_C4 playerC4 outC4 rfl⟩

/-! ## Ability binning (`analytics/build_consensus/main.py`) -/

/-- Exact ceiling division, the value of `int(np.ceil(points / size))` for a
positive size (`Int.fdiv` is floor division, so `-((-n).fdiv w)` is the
ceiling of `n / w`). -/
def ceilDiv (n w : Int) : Int := -(Int.fdiv (-n) w)

/-- `calculate_num_bins`. -/
def calculate_num_bins (ability_points : Int) (bin_size : Int) : Int :=
  ceilDiv ability_points bin_size

/-- A label added to the output set by `bin_abilities`: either a
primary-only ability passed through unbinned (the bare name), or one bin of a
binned ability with its inclusive 1-indexed range. `render` recovers the
exact Python string. -/
inductive BinLabel where
  | unbinned (ability : String)
  | binned (ability : String) (binStart binEnd : Int)
deriving DecidableEq

/-- The Python string of a label: the f-string
`"{ability}: {i * bin_size + 1}-{j * bin_size}"` for a binned label, the bare
ability name for an unbinned one. -/
def BinLabel.render : BinLabel → String
  | .unbinned a => a
  | .binned a lo hi => a ++ ": " ++ toString lo ++ "-" ++ toString hi

def labelAbility : BinLabel → String
  | .unbinned a => a
  | .binned a _ _ => a

/-- Python `set.add`: a no-op when the element is already present, otherwise
the element is added (modelled as an insertion-ordered set). -/
def setAdd (out : List BinLabel) (x : BinLabel) : List BinLabel :=
  if x ∈ out then out else out ++ [x]

/-- The labels generated by the `for i in range(num_bins)` loop for one binned
ability. -/
def binsFor (a : String) (points w : Int) : List BinLabel :=
  (List.range (calculate_num_bins points w).toNat).map
    (fun (i : Nat) => BinLabel.binned a ((i : Int) * w + 1) (((i : Int) + 1) * w))

/-- The `for ability, ability_points in abilities.items()` loop of
`bin_abilities`; `none` models the `ValueError` raised on an ability name
outside the known set. -/
def binLoop (w : Int) : List BinLabel → List (String × Int) → Option (List BinLabel)
  | out, [] => some out
  | out, (a, pts) :: rest =>
    if a ∈ PRIMARY_ONLY then binLoop w (setAdd out (.unbinned a)) rest
    else if a ∈ ABILITIES then binLoop w ((binsFor a pts w).foldl setAdd out) rest
    else none

/-- `bin_abilities`. -/
def bin_abilities (abilities : List (String × Int)) (w : Int) :
    Option (List BinLabel) :=
  binLoop w [] abilities

theorem ceilDiv_ge {n w : Int} (hw : 0 < w) : n ≤ w * ceilDiv n w := by
  unfold ceilDiv
  rw [Int.fdiv_eq_ediv _ (le_of_lt hw)]
  have hde := Int.ediv_add_emod (-n) w
  have h0 := Int.emod_nonneg (-n) (ne_of_gt hw)
  have hmul : w * -((-n) / w) = -(w * ((-n) / w)) := by ring
  rw [hmul]
  linarith

theorem ceilDiv_lt {n w : Int} (hw : 0 < w) : w * ceilDiv n w < n + w := by
  unfold ceilDiv
  rw [Int.fdiv_eq_ediv _ (le_of_lt hw)]
  have hde := Int.ediv_add_emod (-n) w
  have h1 := Int.emod_lt_of_pos (-n) hw
  have hmul : w * -((-n) / w) = -(w * ((-n) / w)) := by ring
  rw [hmul]
  linarith

theorem ceilDiv_nonneg {n w : Int} (hw : 0 < w) (hn : 0 ≤ n) : 0 ≤ ceilDiv n w := by
  unfold ceilDiv
  rw [Int.fdiv_eq_ediv _ (le_of_lt hw)]
  have : (-n) / w ≤ 0 := by
    by_contra hpos
    push_neg at hpos
    have h1 : (1 : Int) ≤ (-n) / w := hpos
    have := (Int.le_ediv_iff_mul_le hw).mp h1
    linarith
  linarith

theorem binsFor_length (a : String) (points w : Int) :
    (binsFor a points w).length = (calculate_num_bins points w).toNat := by
  unfold binsFor
  rw [List.length_map, List.length_range]

theorem binsFor_length_int {a : String} {points w : Int} (hw : 0 < w)
    (hp : 0 ≤ points) :
    ((binsFor a points w).length : Int) = calculate_num_bins points w := by
  rw [binsFor_length]
  exact Int.toNat_of_nonneg (ceilDiv_nonneg hw hp)

theorem binsFor_get (a : String) (points w : Int) (i : Nat)
    (h : i < (calculate_num_bins points w).toNat) :
    (binsFor a points w)[i]? =
      some (.binned a ((i : Int) * w + 1) (((i : Int) + 1) * w)) := by
  unfold binsFor
  rw [List.getElem?_map, List.getElem?_range h]
  rfl

theorem labelAbility_mem_binsFor {a : String} {points w : Int} {l : BinLabel}
    (h : l ∈ binsFor a points w) : labelAbility l = a := by
  unfold binsFor at h
  obtain ⟨i, _, hl⟩ := List.mem_map.mp h
  rw [← hl]
  rfl

theorem binsFor_nodup {a : String} {points w : Int} (hw : 0 < w) :
    (binsFor a points w).Nodup := by
  unfold binsFor
  apply List.Nodup.map_on ?_ (List.nodup_range _)
  intro i _ j _ hij
  injection hij with h1 h2 h3
  have : (i : Int) * w = (j : Int) * w := by linarith
  have : (i : Int) = (j : Int) := mul_right_cancel₀ (ne_of_gt hw) this
  exact_mod_cast this

/-- Coverage of `[1, n]` by the generated bins: every point of the interval
lies in exactly one bin range. -/
theorem bins_cover {n w : Int} (hw : 0 < w) {x : Int} (h1 : 1 ≤ x) (h2 : x ≤ n) :
    ∃! i : Nat, i < (calculate_num_bins n w).toNat ∧
      (i : Int) * w + 1 ≤ x ∧ x ≤ ((i : Int) + 1) * w := by
  have hx0 : 0 ≤ x - 1 := by linarith
  set q : Int := (x - 1) / w with hq
  have hq0 : 0 ≤ q := Int.ediv_nonneg hx0 (le_of_lt hw)
  have hde := Int.ediv_add_emod (x - 1) w
  have hr0 := Int.emod_nonneg (x - 1) (ne_of_gt hw)
  have hr1 := Int.emod_lt_of_pos (x - 1) hw
  have hlow : q * w + 1 ≤ x := by
    have : w * q ≤ x - 1 := by linarith
    linarith [this]
  have hhigh : x ≤ (q + 1) * w := by
    have : x - 1 - w * q < w := by linarith
    nlinarith
  have hqlt : q < calculate_num_bins n w := by
    have hle : x - 1 < w * ceilDiv n w := by
      have := ceilDiv_ge hw (n := n)
      linarith
    unfold calculate_num_bins
    exact (Int.ediv_lt_iff_lt_mul hw).mpr (by linarith)
  refine ⟨q.toNat, ⟨?_, ?_, ?_⟩, ?_⟩
  · have : (q.toNat : Int) < calculate_num_bins n w := by
      rwa [Int.toNat_of_nonneg hq0]
    have hnb0 : 0 ≤ calculate_num_bins n w := le_trans hq0 (le_of_lt hqlt)
    omega
  · rwa [Int.toNat_of_nonneg hq0]
  · rwa [Int.toNat_of_nonneg hq0]
  · rintro j ⟨hjlt, hj1, hj2⟩
    have hjq : (j : Int) = q := by
      have hle : (j : Int) ≤ q := by
        rw [hq]
        exact (Int.le_ediv_iff_mul_le hw).mpr (by linarith)
      have hlt : q < (j : Int) + 1 := by
        rw [hq]
        exact (Int.ediv_lt_iff_lt_mul hw).mpr (by nlinarith)
      omega
    omega

theorem setAdd_filter_ne {out : List BinLabel} {x : BinLabel} {a : String}
    (h : labelAbility x ≠ a) :
    (setAdd out x).filter (fun l => labelAbility l == a) =
      out.filter (fun l => labelAbility l == a) := by
  unfold setAdd
  by_cases hmem : x ∈ out
  · rw [if_pos hmem]
  · rw [if_neg hmem, List.filter_append]
    have hb : (labelAbility x == a) = false := by
      simp [h]
    have hx : List.filter (fun l => labelAbility l == a) [x] = [] := by
      simp [List.filter, hb]
    rw [hx, List.append_nil]

theorem foldl_setAdd_filter_ne {a : String} :
    ∀ (xs : List BinLabel) (out : List BinLabel),
      (∀ x ∈ xs, labelAbility x ≠ a) →
      (xs.foldl setAdd out).filter (fun l => labelAbility l == a) =
        out.filter (fun l => labelAbility l == a)
  | [], _, _ => rfl
  | x :: xs, out, h => by
    simp only [List.foldl_cons]
    rw [foldl_setAdd_filter_ne xs (setAdd out x)
      (fun y hy => h y (List.mem_cons_of_mem _ hy)),
      setAdd_filter_ne (h x (List.mem_cons_self _ _))]

theorem foldl_setAdd_fresh :
    ∀ (xs out : List BinLabel), xs.Nodup → (∀ x ∈ xs, x ∉ out) →
      xs.foldl setAdd out = out ++ xs
  | [], out, _, _ => by simp
  | x :: xs, out, hnd, hfresh => by
    simp only [List.foldl_cons]
    have hx : x ∉ out := hfresh x (List.mem_cons_self _ _)
    have hsa : setAdd out x = out ++ [x] := by
      unfold setAdd
      rw [if_neg hx]
    rw [hsa, foldl_setAdd_fresh xs (out ++ [x]) hnd.of_cons ?_]
    · simp
    · intro y hy hmem
      rcases List.mem_append.mp hmem with hc | hc
      · exact hfresh y (List.mem_cons_of_mem _ hy) hc
      · have hyx : y = x := by simpa using hc
        exact (List.nodup_cons.mp hnd).1 (hyx ▸ hy)

theorem binLoop_frame {w : Int} {a : String} :
    ∀ (items : List (String × Int)) (out res : List BinLabel),
      binLoop w out items = some res → (∀ kv ∈ items, kv.1 ≠ a) →
      res.filter (fun l => labelAbility l == a) =
        out.filter (fun l => labelAbility l == a)
  | [], out, res, h, _ => by
    simp only [binLoop] at h
    injection h with h
    subst h
    rfl
  | (b, pts) :: rest, out, res, h, hne => by
    have hba : b ≠ a := hne (b, pts) (List.mem_cons_self _ _)
    have hrest : ∀ kv ∈ rest, kv.1 ≠ a :=
      fun kv hkv => hne kv (List.mem_cons_of_mem _ hkv)
    simp only [binLoop] at h
    by_cases hP : b ∈ PRIMARY_ONLY
    · rw [if_pos hP] at h
      rw [binLoop_frame rest _ res h hrest]
      exact setAdd_filter_ne (by simpa [labelAbility] using hba)
    · rw [if_neg hP] at h
      by_cases hA : b ∈ ABILITIES
      · rw [if_pos hA] at h
        rw [binLoop_frame rest _ res h hrest]
        exact foldl_setAdd_filter_ne _ _
          (fun x hx => by rw [labelAbility_mem_binsFor hx]; exact hba)
      · rw [if_neg hA] at h
        cases h

theorem binLoop_hit {w : Int} (hw : 0 < w) {a : String} {n : Int} :
    ∀ (items : List (String × Int)) (out res : List BinLabel),
      binLoop w out items = some res → (dictKeys items).Nodup →
      (a, n) ∈ items →
      out.filter (fun l => labelAbility l == a) = [] →
      (a ∈ PRIMARY_ONLY →
        res.filter (fun l => labelAbility l == a) = [BinLabel.unbinned a]) ∧
      (a ∉ PRIMARY_ONLY → a ∈ ABILITIES →
        res.filter (fun l => labelAbility l == a) = binsFor a n w)
  | [], _, _, _, _, hmem, _ => by simp at hmem
  | (b, pts) :: rest, out, res, h, hnd, hmem, hout => by
    have hnd0 : (b :: dictKeys rest).Nodup := hnd
    simp only [binLoop] at h
    by_cases hba : b = a
    · subst hba
      have hpts : pts = n := by
        rcases List.mem_cons.mp hmem with hc | hc
        · injection hc with h1 h2
          exact h2.symm
        · exfalso
          have : b ∈ dictKeys rest := List.mem_map_of_mem Prod.fst hc
          exact (List.nodup_cons.mp hnd0).1 this
      rw [hpts] at h
      have hrest_ne : ∀ kv ∈ rest, kv.1 ≠ b := by
        intro kv hkv he
        exact (List.nodup_cons.mp hnd0).1 (he ▸ List.mem_map_of_mem Prod.fst hkv)
      constructor
      · intro hP
        rw [if_pos hP] at h
        have hnotin : BinLabel.unbinned b ∉ out := by
          intro hmem'
          have hin : BinLabel.unbinned b ∈
              out.filter (fun l => labelAbility l == b) := by
            rw [List.mem_filter]
            exact ⟨hmem', by simp [labelAbility]⟩
          rw [hout] at hin
          simp at hin
        have hsa : setAdd out (.unbinned b) = out ++ [.unbinned b] := by
          unfold setAdd
          rw [if_neg hnotin]
        rw [hsa] at h
        rw [binLoop_frame rest _ res h hrest_ne, List.filter_append, hout]
        simp [labelAbility]
      · intro hP hA
        rw [if_neg hP, if_pos hA] at h
        have hfresh : ∀ x ∈ binsFor b n w, x ∉ out := by
          intro x hx hmem'
          have hin : x ∈ out.filter (fun l => labelAbility l == b) := by
            rw [List.mem_filter]
            exact ⟨hmem', by simp [labelAbility_mem_binsFor hx]⟩
          rw [hout] at hin
          simp at hin
        have hfold : (binsFor b n w).foldl setAdd out = out ++ binsFor b n w :=
          foldl_setAdd_fresh _ _ (binsFor_nodup hw) hfresh
        rw [hfold] at h
        rw [binLoop_frame rest _ res h hrest_ne, List.filter_append, hout]
        have hself : (binsFor b n w).filter (fun l => labelAbility l == b) =
            binsFor b n w := by
          rw [List.filter_eq_self]
          intro x hx
          simp [labelAbility_mem_binsFor hx]
        rw [hself]
        simp
    · have hmem' : (a, n) ∈ rest := by
        rcases List.mem_cons.mp hmem with hc | hc
        · injection hc with h1 _
          exact absurd h1.symm hba
        · exact hc
      have hndrest : (dictKeys rest).Nodup := hnd0.of_cons
      by_cases hP : b ∈ PRIMARY_ONLY
      · rw [if_pos hP] at h
        refine binLoop_hit hw rest _ res h hndrest hmem' ?_
        rw [setAdd_filter_ne (by simpa [labelAbility] using hba)]
        exact hout
      · rw [if_neg hP] at h
        by_cases hA : b ∈ ABILITIES
        · rw [if_pos hA] at h
          refine binLoop_hit hw rest _ res h hndrest hmem' ?_
          rw [foldl_setAdd_filter_ne _ _
            (fun x hx => by rw [labelAbility_mem_binsFor hx]; exact hba)]
          exact hout
        · rw [if_neg hA] at h
          cases h

theorem binLoop_isSome {w : Int} :
    ∀ (items : List (String × Int)) (out : List BinLabel),
      (∀ kv ∈ items, kv.1 ∈ ALL_ABILITIES) →
      ∃ res, binLoop w out items = some res
  | [], out, _ => ⟨out, rfl⟩
  | (b, pts) :: rest, out, hall => by
    have hb := hall (b, pts) (List.mem_cons_self _ _)
    have hrest : ∀ kv ∈ rest, kv.1 ∈ ALL_ABILITIES :=
      fun kv hkv => hall kv (List.mem_cons_of_mem _ hkv)
    simp only [binLoop]
    rcases List.mem_append.mp hb with hP | hA
    · rw [if_pos hP]
      exact binLoop_isSome rest _ hrest
    · by_cases hP : b ∈ PRIMARY_ONLY
      · rw [if_pos hP]
        exact binLoop_isSome rest _ hrest
      · rw [if_neg hP, if_pos hA]
        exact binLoop_isSome rest _ hrest

theorem binLoop_unknown {w : Int} {a : String} {n : Int} :
    ∀ (items : List (String × Int)) (out : List BinLabel),
      (a, n) ∈ items → a ∉ PRIMARY_ONLY → a ∉ ABILITIES →
      binLoop w out items = none
  | [], _, hmem, _, _ => by simp at hmem
  | (b, pts) :: rest, out, hmem, hP, hA => by
    simp only [binLoop]
    by_cases hbP : b ∈ PRIMARY_ONLY
    · rw [if_pos hbP]
      have hmem' : (a, n) ∈ rest := by
        rcases List.mem_cons.mp hmem with hc | hc
        · injection hc with h1 _
          exact absurd (h1 ▸ hbP) hP
        · exact hc
      exact binLoop_unknown rest _ hmem' hP hA
    · rw [if_neg hbP]
      by_cases hbA : b ∈ ABILITIES
      · rw [if_pos hbA]
        have hmem' : (a, n) ∈ rest := by
          rcases List.mem_cons.mp hmem with hc | hc
          · injection hc with h1 _
            exact absurd (h1 ▸ hbA) hA
          · exact hc
        exact binLoop_unknown rest _ hmem' hP hA
      · rw [if_neg hbA]

theorem abilities_not_primary : ∀ a ∈ ABILITIES, a ∉ PRIMARY_ONLY := by decide

/-- Claim C5: binning a mapping of known ability names with a positive bin
width: primary-only names yield exactly their one unbinned label; any other
known name with total `n ≥ 0` yields exactly `ceil(n / w)` binned labels with
the consecutive inclusive ranges `[i*w+1, (i+1)*w]`, which cover `[1, n]` with
no gaps and no overlaps; a name outside the known set makes `bin_abilities`
fail. -/
theorem claim_C5 (m : List (String × Int)) (w : Int) (hw : 0 < w)
    (hnd : (dictKeys m).Nodup) :
    ((∀ kv ∈ m, kv.1 ∈ ALL_ABILITIES) →
      ∃ out, bin_abilities m w = some out ∧
        ∀ a n, (a, n) ∈ m →
          (a ∈ PRIMARY_ONLY →
            out.filter (fun l => labelAbility l == a) = [BinLabel.unbinned a]) ∧
          (a ∈ ABILITIES → 0 ≤ n →
            out.filter (fun l => labelAbility l == a) = binsFor a n w ∧
            ((binsFor a n w).length : Int) = calculate_num_bins n w ∧
            (∀ i : Nat, i < (calculate_num_bins n w).toNat →
              (binsFor a n w)[i]? =
                some (.binned a ((i : Int) * w + 1) (((i : Int) + 1) * w))) ∧
            (∀ x : Int, 1 ≤ x → x ≤ n →
              ∃! i : Nat, i < (calculate_num_bins n w).toNat ∧
                (i : Int) * w + 1 ≤ x ∧ x ≤ ((i : Int) + 1) * w))) ∧
    (∀ a n, (a, n) ∈ m → a ∉ ALL_ABILITIES → bin_abilities m w = none) := by
  constructor
  · intro hall
    obtain ⟨out, hout⟩ := binLoop_isSome m [] hall
    refine ⟨out, hout, ?_⟩
    intro a n hmem
    have hhit := binLoop_hit hw m [] out hout hnd hmem rfl
    constructor
    · exact hhit.1
    · intro hA hn
      refine ⟨hhit.2 (abilities_not_primary a hA) hA, binsFor_length_int hw hn,
        fun i hi => binsFor_get a n w i hi, fun x h1 h2 => bins_cover hw h1 h2⟩
  · intro a n hmem hnot
    unfold bin_abilities
    exact binLoop_unknown m [] hmem
      (fun hP => hnot (List.mem_append_left _ hP))
      (fun hA => hnot (List.mem_append_right _ hA))

def binInputC5 : List (String × Int) := [("Comeback", 10), ("Ink Saver (Main)", 23)]

/-- Witness for claim C5 at a concrete mapping with bin width 10. -/
theorem claim_C5_witness :
    (0 : Int) < 10 ∧ (dictKeys binInputC5).Nodup ∧
      bin_abilities binInputC5 10 =
        some [BinLabel.unbinned "Comeback",
          BinLabel.binned "Ink Saver (Main)" 1 10,
          BinLabel.binned "Ink Saver (Main)" 11 20,
          BinLabel.binned "Ink Saver (Main)" 21 30] ∧
      ((∀ kv ∈ binInputC5, kv.1 ∈ ALL_ABILITIES) →
        ∃ out, bin_abilities binInputC5 10 = some out ∧
          ∀ a n, (a, n) ∈ binInputC5 →
            (a ∈ PRIMARY_ONLY →
              out.filter (fun l => labelAbility l == a) = [BinLabel.unbinned a]) ∧
            (a ∈ ABILITIES → 0 ≤ n →
              out.filter (fun l => labelAbility l == a) = binsFor a n 10 ∧
              ((binsFor a n 10).length : Int) = calculate_num_bins n 10 ∧
              (∀ i : Nat, i < (calculate_num_bins n 10).toNat →
                (binsFor a n 10)[i]? =
                  some (.binned a ((i : Int) * 10 + 1) (((i : Int) + 1) * 10))) ∧
              (∀ x : Int, 1 ≤ x → x ≤ n →
                ∃! i : Nat, i < (calculate_num_bins n 10).toNat ∧
                  (i : Int) * 10 + 1 ≤ x ∧ x ≤ ((i : Int) + 1) * 10))) :=
  ⟨by decide, by decide, by decide, (claim_C5 binInputC5 10 (by decide) (by decide)).1⟩

/-! ## Teams and scores (`resultSchema`, `teamSchema`) -/

/-- `resultSchema`: every stat field is nullable (`None` defaults).
`noroshiTry`/`noroshi` are always null and are omitted. -/
structure Result where
  kill : Option Int := none
  death : Option Int := none
  assist : Option Int := none
  special : Option Int := none
  paintRatio : Option Rat := none
  score : Option Int := none
deriving DecidableEq

/-- `playerFullSchema`: a player together with match-specific fields. The
weapon sub-object is represented by the two attributes the summaries read
(`weapon.name`, `weapon.id`); festDragonCert and the nameplate are unused. -/
structure PlayerFull extends Player where
  isMyself : Bool
  species : String
  weapon : String
  weaponId : String
  result : Option Result := none
deriving DecidableEq

/-- `teamSchema`; color/tricolorRole/festTeamName are unused by the
summaries. -/
structure Team where
  judgement : String
  players : List PlayerFull
  order : Int
  result : Option Result := none
deriving DecidableEq

/-- Python truthiness of a nullable int: `None` and `0` are falsy. -/
def truthyOptInt : Option Int → Bool
  | none => false
  | some n => n != 0

/-- Python truthiness of a nullable float: `None` and `0.0` are falsy. -/
def truthyOptRat : Option Rat → Bool
  | none => false
  | some q => q != 0

/-- `teamSchema.score`: `if self.result and self.result.score: ... elif
self.result and self.result.paintRatio: ... else: 0`. A missing result object
is falsy, and so are a stored score of 0 and a stored paint ratio of 0.0. -/
def Team.score (t : Team) : Rat :=
  match t.result with
  | none => 0
  | some r =>
    if truthyOptInt r.score then ((r.score.getD 0 : Int) : Rat)
    else if truthyOptRat r.paintRatio then r.paintRatio.getD 0 * 100
    else 0

/-- The team score as claim C6 words it: the recorded score if present, else
100 times the recorded paint ratio if present, else zero — presence alone
decides the branch, regardless of the stored value. -/
def teamScoreClaim (t : Team) : Rat :=
  match t.result with
  | none => 0
  | some r =>
    match r.score with
    | some s => (s : Rat)
    | none =>
      match r.paintRatio with
      | some q => q * 100
      | none => 0

def teamC6 : Team :=
  { judgement := "LOSE", players := [], order := 2,
    result := some { score := some 0, paintRatio := some ((1 : Rat) / 2) } }

/-- Counterexample to claim C6 as stated: with a recorded score of 0 (present)
and a recorded paint ratio of 0.5, the code falls through the truthiness test
and returns 50, while the claim's "score if present" demands 0. -/
theorem claim_C6_counterexample :
    Team.score teamC6 = 50 ∧ teamScoreClaim teamC6 = 0 ∧
      Team.score teamC6 ≠ teamScoreClaim teamC6 := by
  have h1 : Team.score teamC6 = 50 := by
    simp only [Team.score, teamC6]
    norm_num [truthyOptInt, truthyOptRat]
  have h2 : teamScoreClaim teamC6 = 0 := by
    simp [teamScoreClaim, teamC6]
  refine ⟨h1, h2, ?_⟩
  rw [h1, h2]
  norm_num

/-- Claim C6 as amended: the team score is the recorded score when present
and nonzero, else 100 times the recorded paint ratio when present and
nonzero, else zero. -/
theorem claim_C6_amended (t : Team) :
    (t.result = none → Team.score t = 0) ∧
      (∀ r, t.result = some r →
        (∀ s, r.score = some s → s ≠ 0 → Team.score t = (s : Rat)) ∧
        ((r.score = none ∨ r.score = some 0) →
          ∀ q, r.paintRatio = some q → q ≠ 0 → Team.score t = q * 100) ∧
        ((r.score = none ∨ r.score = some 0) →
          (r.paintRatio = none ∨ r.paintRatio = some 0) → Team.score t = 0)) := by
  constructor
  · intro h
    unfold Team.score
    rw [h]
  · intro r hr
    refine ⟨?_, ?_, ?_⟩
    · intro s hs hne
      simp only [Team.score, hr]
      have ht : truthyOptInt r.score = true := by
        rw [hs]
        simp [truthyOptInt, hne]
      rw [if_pos ht, hs]
      rfl
    · intro hscore q hq hqne
      simp only [Team.score, hr]
      have ht : truthyOptInt r.score = false := by
        rcases hscore with h | h <;> rw [h] <;> simp [truthyOptInt]
      rw [ht]
      have htq : truthyOptRat r.paintRatio = true := by
        rw [hq]
        simp [truthyOptRat, hqne]
      simp only [Bool.false_eq_true, if_false, htq, if_true]
      rw [hq]
      rfl
    · intro hscore hpaint
      simp only [Team.score, hr]
      have ht : truthyOptInt r.score = false := by
        rcases hscore with h | h <;> rw [h] <;> simp [truthyOptInt]
      have htq : truthyOptRat r.paintRatio = false := by
        rcases hpaint with h | h <;> rw [h] <;> simp [truthyOptRat]
      rw [ht, htq]
      simp

def teamC6b : Team :=
  { judgement := "WIN", players := [], order := 1,
    result := some { score := some 53 } }

/-- Witness for the amended claim C6 at two concrete teams: a nonzero
recorded score is returned as-is, and the zero-score team falls back to
100 times its paint ratio. -/
theorem claim_C6_amended_witness :
    teamC6b.result = some { score := some 53 } ∧
      Team.score teamC6b = 53 ∧ Team.score teamC6 = ((1 : Rat) / 2) * 100 := by
  refine ⟨rfl, ?_, ?_⟩
  · have h := ((claim_C6_amended teamC6b).2 { score := some 53 } rfl).1 53 rfl
      (by norm_num)
    simpa using h
  · exact ((claim_C6_amended teamC6).2
      ({ score := some 0, paintRatio := some ((1 : Rat) / 2) } : Result)
      rfl).2.1 (Or.inr rfl) ((1 : Rat) / 2) rfl (by norm_num)

/-! ## Summary values (`playerFullSchema.summary` and friends) -/

/-- A Python value stored in a summary dict: scalars, the nested ability
ledger, the external weapon-details dict, nested dicts/lists (players, teams),
and the `(name, rank)` award tuples. -/
inductive FVal where
  | str (s : String)
  | int (n : Int)
  | rat (q : Rat)
  | null
  | ledger (l : List (String × Int))
  | wdet (d : List (String × String))
  | dict (d : List (String × FVal))
  | list (xs : List FVal)
  | tup (first second : String)

def optIntFVal : Option Int → FVal
  | some n => .int n
  | none => .null

def optStrFVal : Option String → FVal
  | some s => .str s
  | none => .null

/-- `playerSchema.full_name`. -/
def Player.full_name (p : Player) : String := p.name ++ "#" ++ p.nameId

/-- `playerFullSchema.summary`. The external weapon reference
(`WEAPON_MAP[version].versus_weapons`) is a collaborator and is passed in as
the lookup `wd`. A present result with a null kill or assist makes the
subtraction `self.result.kill - self.result.assist` raise (`none`); a missing
result defaults every combat stat to 0. -/
def PlayerFull.summary (wd : String → List (String × String)) (p : PlayerFull) :
    Option (List (String × FVal)) :=
  match p.toPlayer.calculate_abilities with
  | none => none
  | some ab =>
    let base : List (String × FVal) :=
      [("name", .str p.toPlayer.full_name), ("abilities", .ledger ab),
        ("weapon", .str p.weapon), ("weapon_id", .str p.weaponId),
        ("species", .str p.species), ("paint", .int p.paint),
        ("weapon_details", .wdet (wd p.weapon))]
    match p.result with
    | some r =>
      match r.kill, r.assist with
      | some k, some a =>
        some (base ++ [("elimination", .int k), ("kill", .int (k - a)),
          ("death", optIntFVal r.death), ("special", optIntFVal r.special),
          ("assist", .int a)])
      | _, _ => none
    | none =>
      some (base ++ [("elimination", .int 0), ("kill", .int 0),
        ("death", .int 0), ("special", .int 0), ("assist", .int 0)])

/-- Claim C10: when the result payload is present and a summary is produced,
the summary's "elimination" field is the recorded kill count, its "kill"
field is the recorded kill count minus the recorded assist count, and hence
kill + assist = elimination in the summary. -/
theorem claim_C10 (wd : String → List (String × String)) (p : PlayerFull)
    (r : Result) (s : List (String × FVal))
    (hr : p.result = some r) (hs : PlayerFull.summary wd p = some s) :
    ∃ k a, r.kill = some k ∧ r.assist = some a ∧
      dictGet s "elimination" = some (.int k) ∧
      dictGet s "kill" = some (.int (k - a)) ∧
      dictGet s "assist" = some (.int a) ∧
      (k - a) + a = k := by
  unfold PlayerFull.summary at hs
  cases hab : p.toPlayer.calculate_abilities with
  | none => rw [hab] at hs; cases hs
  | some ab =>
    rw [hab, hr] at hs
    have hs2 : (match r.kill, r.assist with
      | some k, some a =>
        some (([("name", FVal.str p.toPlayer.full_name), ("abilities", .ledger ab),
          ("weapon", FVal.str p.weapon), ("weapon_id", FVal.str p.weaponId),
          ("species", FVal.str p.species), ("paint", FVal.int p.paint),
          ("weapon_details", FVal.wdet (wd p.weapon))] : List (String × FVal)) ++
          [("elimination", FVal.int k), ("kill", FVal.int (k - a)),
            ("death", optIntFVal r.death), ("special", optIntFVal r.special),
            ("assist", FVal.int a)])
      | _, _ => none) = some s := hs
    cases hk : r.kill with
    | none => rw [hk] at hs2; cases hka : r.assist <;> rw [hka] at hs2 <;> cases hs2
    | some k =>
      cases ha : r.assist with
      | none => rw [hk, ha] at hs2; cases hs2
      | some a =>
        rw [hk, ha] at hs2
        simp only [Option.some.injEq] at hs2
        refine ⟨k, a, rfl, rfl, ?_, ?_, ?_, by omega⟩ <;>
          rw [← hs2] <;> simp [dictGet]

def wd0 : String → List (String × String) := fun _ => []

def resultC10 : Result :=
  { kill := some 8, death := some 5, assist := some 2, special := some 4 }

def playerFullC10 : PlayerFull :=
  { name := "Joy", nameId := "1584",
    headGear := ⟨"Head", ⟨"Ink Recovery Up"⟩, [⟨"Ink Saver (Main)"⟩]⟩,
    clothingGear := ⟨"Clothes", ⟨"Comeback"⟩, []⟩,
    shoesGear := ⟨"Shoes", ⟨"Stealth Jump"⟩, [⟨"Run Speed Up"⟩]⟩,
    paint := 1073,
    isMyself := true, species := "INKLING",
    weapon := "Splatterscope", weaponId := "V2VhcG9uLTIwMjA=",
    result := some resultC10 }

def summaryC10 : List (String × FVal) :=
  (PlayerFull.summary wd0 playerFullC10).getD []

/-- Witness for claim C10 at a concrete player with 8 kills and 2 assists. -/
theorem claim_C10_witness :
    playerFullC10.result = some resultC10 ∧
      PlayerFull.summary wd0 playerFullC10 = some summaryC10 ∧
      ∃ k a, (some 8 : Option Int) = some k ∧ (some 2 : Option Int) = some a ∧
        dictGet summaryC10 "elimination" = some (.int k) ∧
        dictGet summaryC10 "kill" = some (.int (k - a)) ∧
        dictGet summaryC10 "assist" = some (.int a) ∧
        (k - a) + a = k :=
  ⟨rfl, rfl, claim_C10 wd0 playerFullC10 _ summaryC10 rfl rfl⟩

/-! ## Decimal rendering (Python f-string `{i + 1}`) -/

def digitChar (d : Nat) : Char := Char.ofNat (48 + d)

/-- Fuel-based decimal digit expansion (`fuel > n` always suffices; the fuel
only makes the recursion structural so that it evaluates in the kernel). -/
def decDigitsAux : Nat → Nat → List Char
  | 0, _ => []
  | fuel + 1, n =>
    if n < 10 then [digitChar n]
    else decDigitsAux fuel (n / 10) ++ [digitChar (n % 10)]

/-- The decimal digits of `n`, most significant first. -/
def decDigits (n : Nat) : List Char := decDigitsAux (n + 1) n

/-- The decimal rendering of `n`, as produced by Python `str`/f-strings. -/
def decRepr (n : Nat) : String := String.mk (decDigits n)

theorem decDigitsAux_fuel_irrel :
    ∀ (n f₁ f₂ : Nat), n < f₁ → n < f₂ → decDigitsAux f₁ n = decDigitsAux f₂ n := by
  intro n
  induction n using Nat.strong_induction_on with
  | _ n ih =>
    intro f₁ f₂ h₁ h₂
    cases f₁ with
    | zero => omega
    | succ k₁ =>
      cases f₂ with
      | zero => omega
      | succ k₂ =>
        simp only [decDigitsAux]
        by_cases hlt : n < 10
        · rw [if_pos hlt, if_pos hlt]
        · rw [if_neg hlt, if_neg hlt]
          have hdiv : n / 10 < n := Nat.div_lt_self (by omega) (by omega)
          rw [ih (n / 10) hdiv k₁ k₂ (by omega) (by omega)]

theorem decDigits_eq (n : Nat) :
    decDigits n =
      if n < 10 then [digitChar n]
      else decDigits (n / 10) ++ [digitChar (n % 10)] := by
  unfold decDigits
  simp only [decDigitsAux]
  by_cases hlt : n < 10
  · rw [if_pos hlt, if_pos hlt]
  · rw [if_neg hlt, if_neg hlt]
    have hdiv : n / 10 < n := Nat.div_lt_self (by omega) (by omega)
    rw [decDigitsAux_fuel_irrel (n / 10) n (n / 10 + 1) hdiv (by omega)]
    rfl

/-! ## Team and match summaries (`teamSchema`, `vsHistoryDetailSchema`) -/

def getIntF : FVal → Option Int
  | .int n => some n
  | _ => none

/-- `sum(player[key] for player in player_summaries)`: `none` models the
`TypeError` of adding a null stat. -/
def sumStat : List (List (String × FVal)) → String → Option Int
  | [], _ => some 0
  | pd :: rest, key =>
    match dictGet pd key with
    | none => none
    | some v =>
      match getIntF v with
      | none => none
      | some n => (sumStat rest key).map (n + ·)

/-- The `team_total` dict of `teamSchema.team_summary` (detailed = False),
given the player summaries and the team score. -/
def teamTotals (ps : List (List (String × FVal))) (sc : Rat) :
    Option (List (String × FVal)) :=
  match sumStat ps "kill", sumStat ps "death", sumStat ps "special",
      sumStat ps "assist", sumStat ps "paint" with
  | some k, some d, some sp, some a, some pa =>
    some [("kill", .int k), ("death", .int d), ("special", .int sp),
      ("assist", .int a), ("paint", .int pa), ("score", .rat sc)]
  | _, _, _, _, _ => none

/-- `teamSchema.player_summary` with `detailed=False`. -/
def Team.player_summary (wd : String → List (String × String)) (t : Team) :
    Option (List (List (String × FVal))) :=
  t.players.mapM (PlayerFull.summary wd)

/-- `teamSchema.team_summary` with `detailed=False` and the player summaries
computed internally. -/
def Team.team_summary (wd : String → List (String × String)) (t : Team) :
    Option (List (String × FVal)) :=
  match t.players.mapM (PlayerFull.summary wd) with
  | none => none
  | some ps => teamTotals ps t.score

/-- One ratio `player_dict[key] / max(team_stats[key], 1)` of the detailed
player summary. -/
def ratioVal (pd ts : List (String × FVal)) (key : String) : Option Rat :=
  match dictGet pd key, dictGet ts key with
  | some pv, some tv =>
    match getIntF pv, getIntF tv with
    | some pn, some tn => some ((pn : Rat) / ((max tn 1 : Int) : Rat))
    | _, _ => none
  | _, _ => none

/-- The per-player detailed additions of `teamSchema.player_summary` with
`detailed=True`. -/
def detailPlayer (ts pd : List (String × FVal)) : Option (List (String × FVal)) :=
  match ratioVal pd ts "kill", ratioVal pd ts "death", ratioVal pd ts "special",
      ratioVal pd ts "assist", ratioVal pd ts "paint" with
  | some kr, some dr, some sr, some ar, some pr =>
    match dictGet pd "kill", dictGet pd "death" with
    | some kv, some dv =>
      match getIntF kv, getIntF dv with
      | some kn, some dn =>
        some (dictUpdate pd
          [("kill_ratio", .rat kr), ("death_ratio", .rat dr),
            ("special_ratio", .rat sr), ("assist_ratio", .rat ar),
            ("paint_ratio", .rat pr),
            ("kdr", .rat ((kn : Rat) / ((max dn 1 : Int) : Rat)))])
      | _, _ => none
    | _, _ => none
  | _, _, _, _, _ => none

/-- `teamSchema.player_summary` with `detailed=True`. -/
def Team.player_summary_detailed (wd : String → List (String × String))
    (t : Team) : Option (List (List (String × FVal))) :=
  match t.players.mapM (PlayerFull.summary wd) with
  | none => none
  | some out =>
    match teamTotals out t.score with
    | none => none
    | some ts => out.mapM (detailPlayer ts)

/-- One award (`awardsSchema`): name and rank. -/
structure Award where
  name : String
  rank : String
deriving DecidableEq

/-- `vsHistoryDetailSchema`, restricted to the attributes its summaries read:
the rule/mode/stage names, the acting player, the judgement/knockout,
duration and raw played time, the own team and the opposing teams, and the
award list. The version label is resolved through an external collaborator
and is passed to the summaries as a parameter. -/
structure Match where
  id : String
  rule : String
  mode : String
  stage : String
  player : Player
  judgement : String
  myTeam : Team
  otherTeams : List Team
  awards : List Award
  duration : Int
  playedTime : String
  knockout : Option String := none

/-- `player["name"] == self.player.full_name`. -/
def isNamed (fn : String) (pd : List (String × FVal)) : Bool :=
  match dictGet pd "name" with
  | some (.str s) => s == fn
  | _ => false

/-- `vsHistoryDetailSchema.my_stats` (detailed = False): the first summary of
the own team whose name matches the acting player; `none` models the
`ValueError` when no summary matches. -/
def Match.my_stats (wd : String → List (String × String)) (m : Match) :
    Option (List (String × FVal)) :=
  match m.myTeam.players.mapM (PlayerFull.summary wd) with
  | none => none
  | some ps =>
    match ps.find? (isNamed m.player.full_name) with
    | none => none
    | some pd => some pd

/-- `vsHistoryDetailSchema.summary` (detailed = False), with the resolved
version label `ver` supplied by the external version collaborator. -/
def Match.summary (wd : String → List (String × String)) (ver : String)
    (m : Match) : Option (List (String × FVal)) :=
  match m.my_stats wd with
  | none => none
  | some myStatsV =>
  match m.myTeam.player_summary_detailed wd with
  | none => none
  | some myTeamV =>
  match m.otherTeams.mapM (Team.player_summary_detailed wd) with
  | none => none
  | some otherTeamsV =>
  match m.myTeam.team_summary wd with
  | none => none
  | some myTeamStats =>
  match m.otherTeams.mapM (Team.team_summary wd) with
  | none => none
  | some otherTeamStats =>
  some [("me", .str m.player.full_name), ("rule", .str m.rule),
    ("mode", .str m.mode), ("stage", .str m.stage),
    ("judgement", .str m.judgement), ("knockout", optStrFVal m.knockout),
    ("duration", .int m.duration), ("played_time", .str m.playedTime),
    ("version", .str ver), ("my_stats", .dict myStatsV),
    ("my_team", .list (myTeamV.map .dict)),
    ("other_teams", .list (otherTeamsV.map (fun tv => .list (tv.map .dict)))),
    ("awards", .list (m.awards.map (fun aw => .tup aw.name aw.rank))),
    ("my_team_stats", .dict myTeamStats),
    ("other_team_stats", .list (otherTeamStats.map .dict))]

def myStatsKeys : List String :=
  ["weapon", "paint", "elimination", "kill", "death", "special", "assist"]

def asDict : FVal → Option (List (String × FVal))
  | .dict d => some d
  | _ => none

def headF : List FVal → Option FVal
  | [] => none
  | x :: _ => some x

def asTupList : FVal → Option (List (String × String))
  | .list xs => xs.mapM (fun x =>
      match x with
      | .tup a b => some (a, b)
      | _ => none)
  | _ => none

/-- The `for i, award in enumerate(awards)` loop: the fields
`award_{i+1}` / `award_{i+1}_rank` in source order. -/
def awardFields : Nat → List (String × String) → List (String × FVal)
  | _, [] => []
  | i, (nm, rk) :: rest =>
    ("award_" ++ decRepr (i + 1), .str nm) ::
      ("award_" ++ decRepr (i + 1) ++ "_rank", .str rk) :: awardFields (i + 1) rest

/-- `battleNodeSchema.match_summary` (detailed = False): rejects matches with
more than one opposing team, pops the nested components, flattens the acting
player's scalar stats, both teams' pluralized-prefixed aggregate stats, and
the numbered award fields. `none` models every raised exception (the tricolor
`ValueError`, the `IndexError` on a missing opposing team, and errors raised
while the nested summary is computed). -/
def Match.match_summary (wd : String → List (String × String)) (ver : String)
    (m : Match) : Option (List (String × FVal)) :=
  if m.otherTeams.length > 1 then none
  else
  match Match.summary wd ver m with
  | none => none
  | some s0 =>
  match dictPop s0 "my_team" with
  | none => none
  | some (_, s1) =>
  match dictPop s1 "other_teams" with
  | none => none
  | some (_, s2) =>
  match dictPop s2 "my_stats" with
  | none => none
  | some (msv, s3) =>
  match dictPop s3 "my_team_stats" with
  | none => none
  | some (mtsv, s4) =>
  match dictPop s4 "other_team_stats" with
  | none => none
  | some (otsv, s5) =>
  match asDict msv with
  | none => none
  | some myStatsD =>
  match asDict mtsv with
  | none => none
  | some myTeamStatsD =>
  match otsv with
  | .list otl =>
    match headF otl with
    | none => none
    | some ot0 =>
    match asDict ot0 with
    | none => none
    | some otherStatsD =>
    match myStatsKeys.mapM (fun k => (dictGet myStatsD k).map (fun v => (k, v))) with
    | none => none
    | some msSel =>
    let s6 := dictUpdate s5 msSel
    let s7 := dictUpdate s6
      (myTeamStatsD.map (fun kv => ("my_team_" ++ kv.1 ++ "s", kv.2)))
    let s8 := dictUpdate s7
      (otherStatsD.map (fun kv => ("other_team_" ++ kv.1 ++ "s", kv.2)))
    match dictPop s8 "awards" with
    | none => none
    | some (awv, s9) =>
    match asTupList awv with
    | none => none
    | some awl => some (dictUpdate s9 (awardFields 0 awl))
  | _ => none

/-! ### Dict update lemmas -/

theorem dinsert_fresh {α : Type} {l : List (String × α)} {k : String} {v : α}
    (h : k ∉ dictKeys l) : dinsert l k v = l ++ [(k, v)] := by
  induction l with
  | nil => rfl
  | cons kv rest ih =>
    obtain ⟨k', v'⟩ := kv
    have hk : k' ≠ k := by
      intro he
      exact h (by simp [dictKeys, he])
    have hrest : k ∉ dictKeys rest := by
      intro hm
      exact h (by simp [dictKeys] at hm ⊢; right; exact hm)
    simp only [dinsert, if_neg hk, List.cons_append, ih hrest]

theorem dictUpdate_fresh {α : Type} :
    ∀ (u l : List (String × α)), (dictKeys u).Nodup →
      (∀ k ∈ dictKeys u, k ∉ dictKeys l) → dictUpdate l u = l ++ u
  | [], l, _, _ => by simp [dictUpdate]
  | (k, v) :: u, l, hnd, hfresh => by
    have hnd0 : (k :: dictKeys u).Nodup := hnd
    have hk : k ∉ dictKeys l := hfresh k (by simp [dictKeys])
    have hstep : dictUpdate l ((k, v) :: u) = dictUpdate (l ++ [(k, v)]) u := by
      simp only [dictUpdate, List.foldl_cons, dinsert_fresh hk]
    rw [hstep, dictUpdate_fresh u (l ++ [(k, v)]) hnd0.of_cons ?_]
    · simp
    · intro k' hk' hmem
      have hkeys : dictKeys (l ++ [(k, v)]) = dictKeys l ++ [k] := by
        simp [dictKeys]
      rw [hkeys] at hmem
      rcases List.mem_append.mp hmem with hc | hc
      · exact hfresh k' (by simp [dictKeys] at hk' ⊢; right; exact hk') hc
      · have : k' = k := by simpa using hc
        exact (List.nodup_cons.mp hnd0).1 (this ▸ hk')

theorem dinsert_get_eq {α : Type} {l : List (String × α)} {k : String} {v : α} :
    dictGet (dinsert l k v) k = some v := by
  induction l with
  | nil => simp [dinsert, dictGet]
  | cons kv rest ih =>
    obtain ⟨k', v'⟩ := kv
    by_cases hk : k' = k
    · subst hk
      simp [dinsert, dictGet]
    · simp only [dinsert, if_neg hk]
      rw [dictGet_cons_ne hk]
      exact ih

theorem dinsert_get_ne {α : Type} {l : List (String × α)} {k k' : String} {v : α}
    (h : k' ≠ k) : dictGet (dinsert l k v) k' = dictGet l k' := by
  induction l with
  | nil =>
    simp only [dinsert]
    rw [dictGet_cons_ne (fun he => h he.symm)]
  | cons kv rest ih =>
    obtain ⟨k₀, v₀⟩ := kv
    by_cases hk : k₀ = k
    · subst hk
      have hins : dinsert ((k₀, v₀) :: rest) k₀ v = (k₀, v) :: rest := by
        simp [dinsert]
      rw [hins, dictGet_cons_ne (fun he => h he.symm),
        dictGet_cons_ne (fun he => h he.symm)]
    · simp only [dinsert, if_neg hk]
      by_cases hk0 : k₀ = k'
      · subst hk0
        rw [dictGet_cons_eq, dictGet_cons_eq]
      · rw [dictGet_cons_ne hk0, dictGet_cons_ne hk0]
        exact ih

theorem dictUpdate_get_frame {α : Type} :
    ∀ (u l : List (String × α)) (k : String), k ∉ dictKeys u →
      dictGet (dictUpdate l u) k = dictGet l k
  | [], _, _, _ => rfl
  | (k₀, v₀) :: u, l, k, h => by
    have hk : k₀ ≠ k := by
      intro he
      exact h (by simp [dictKeys, he])
    have hrest : k ∉ dictKeys u := by
      intro hm
      exact h (by simp [dictKeys] at hm ⊢; right; exact hm)
    have hstep : dictUpdate l ((k₀, v₀) :: u) = dictUpdate (dinsert l k₀ v₀) u := by
      simp only [dictUpdate, List.foldl_cons]
    rw [hstep, dictUpdate_get_frame u (dinsert l k₀ v₀) k hrest,
      dinsert_get_ne (fun he => hk he.symm)]

theorem dictUpdate_get_mem {α : Type} :
    ∀ (u l : List (String × α)) (k : String) (v : α),
      (dictKeys u).Nodup → (k, v) ∈ u →
      dictGet (dictUpdate l u) k = some v
  | [], _, _, _, _, hmem => by simp at hmem
  | (k₀, v₀) :: u, l, k, v, hnd, hmem => by
    have hnd0 : (k₀ :: dictKeys u).Nodup := hnd
    have hstep : dictUpdate l ((k₀, v₀) :: u) = dictUpdate (dinsert l k₀ v₀) u := by
      simp only [dictUpdate, List.foldl_cons]
    rcases List.mem_cons.mp hmem with hc | hc
    · injection hc with h1 h2
      subst h1
      subst h2
      rw [hstep, dictUpdate_get_frame u _ k (List.nodup_cons.mp hnd0).1,
        dinsert_get_eq]
    · have hk : k ∈ dictKeys u := by
        simp only [dictKeys]
        exact List.mem_map_of_mem Prod.fst hc
      rw [hstep, dictUpdate_get_mem u _ k v hnd0.of_cons hc]

theorem dictGet_append {α : Type} :
    ∀ (l₁ l₂ : List (String × α)) (k : String),
      dictGet (l₁ ++ l₂) k =
        match dictGet l₁ k with
        | some v => some v
        | none => dictGet l₂ k
  | [], _, _ => rfl
  | (k₀, v₀) :: l₁, l₂, k => by
    by_cases hk : k₀ = k
    · subst hk
      simp [dictGet]
    · simp only [List.cons_append]
      rw [dictGet_cons_ne hk, dictGet_cons_ne hk]
      exact dictGet_append l₁ l₂ k

/-! ### Decimal rendering facts -/

theorem digitChar_inj_lt : ∀ m < 10, ∀ n < 10, digitChar m = digitChar n → m = n := by
  decide

theorem digitChar_ne_k : ∀ d < 10, digitChar d ≠ 'k' := by decide

theorem decDigits_ne_nil (n : Nat) : decDigits n ≠ [] := by
  rw [decDigits_eq n]
  by_cases h : n < 10
  · simp [h]
  · simp [h]

theorem app_cancel_left {α : Type} : ∀ (a b c : List α), a ++ b = a ++ c → b = c
  | [], _, _, h => h
  | x :: a, b, c, h => by
    simp only [List.cons_append, List.cons.injEq] at h
    exact app_cancel_left a b c h.2

theorem append_singleton_inj {α : Type} {l₁ l₂ : List α} {a b : α}
    (h : l₁ ++ [a] = l₂ ++ [b]) : l₁ = l₂ ∧ a = b := by
  have hr := congrArg List.reverse h
  simp only [List.reverse_append, List.reverse_cons, List.reverse_nil,
    List.nil_append, List.singleton_append, List.cons.injEq] at hr
  exact ⟨by
    have := congrArg List.reverse hr.2
    simpa using this, hr.1⟩

theorem decDigits_inj : ∀ m n : Nat, decDigits m = decDigits n → m = n := by
  intro m
  induction m using Nat.strong_induction_on with
  | _ m ih =>
    intro n h
    rw [decDigits_eq m, decDigits_eq n] at h
    by_cases hm : m < 10
    · by_cases hn : n < 10
      · rw [if_pos hm, if_pos hn] at h
        simp only [List.cons.injEq] at h
        exact digitChar_inj_lt m hm n hn h.1
      · rw [if_pos hm, if_neg hn] at h
        have hlen := congrArg List.length h
        simp only [List.length_cons, List.length_nil, List.length_append] at hlen
        have hne := decDigits_ne_nil (n / 10)
        cases hd : decDigits (n / 10) with
        | nil => exact absurd hd hne
        | cons c cs => rw [hd] at hlen; simp at hlen
    · by_cases hn : n < 10
      · rw [if_neg hm, if_pos hn] at h
        have hlen := congrArg List.length h
        simp only [List.length_cons, List.length_nil, List.length_append] at hlen
        have hne := decDigits_ne_nil (m / 10)
        cases hd : decDigits (m / 10) with
        | nil => exact absurd hd hne
        | cons c cs => rw [hd] at hlen; simp at hlen
      · rw [if_neg hm, if_neg hn] at h
        obtain ⟨h1, h2⟩ := append_singleton_inj h
        have hdiv : m / 10 < m := Nat.div_lt_self (by omega) (by omega)
        have hq := ih (m / 10) hdiv (n / 10) h1
        have hr := digitChar_inj_lt (m % 10) (Nat.mod_lt _ (by omega)) (n % 10)
          (Nat.mod_lt _ (by omega)) h2
        omega

theorem getLast_append_singleton {α : Type} (l : List α) (a : α) :
    (l ++ [a]).getLast? = some a := by
  induction l with
  | nil => rfl
  | cons x xs ih =>
    rw [List.cons_append]
    cases hxs : xs ++ [a] with
    | nil => exact absurd hxs (by simp)
    | cons y ys =>
      rw [List.getLast?_cons_cons, ← hxs]
      exact ih

theorem strApp_data (s t : String) : (s ++ t).data = s.data ++ t.data := rfl

theorem decDigits_getLast (n : Nat) :
    ∃ d, d < 10 ∧ ∀ pre : List Char, (pre ++ decDigits n).getLast? = some (digitChar d) := by
  by_cases h : n < 10
  · refine ⟨n, h, fun pre => ?_⟩
    rw [decDigits_eq n, if_pos h]
    exact getLast_append_singleton pre (digitChar n)
  · refine ⟨n % 10, Nat.mod_lt _ (by omega), fun pre => ?_⟩
    rw [decDigits_eq n, if_neg h, ← List.append_assoc]
    exact getLast_append_singleton _ _

/-! ### Award field keys -/

theorem award_key_inj {i j : Nat}
    (h : "award_" ++ decRepr i = "award_" ++ decRepr j) : i = j := by
  have hd := congrArg String.data h
  rw [strApp_data, strApp_data] at hd
  exact decDigits_inj i j (app_cancel_left _ _ _ hd)

theorem award_key_ne_rank (i j : Nat) :
    "award_" ++ decRepr i ≠ "award_" ++ decRepr j ++ "_rank" := by
  intro h
  obtain ⟨d, hd10, hlast⟩ := decDigits_getLast i
  have h1 : ("award_" ++ decRepr i).data.getLast? = some (digitChar d) := by
    rw [strApp_data]
    exact hlast _
  have h2 : ("award_" ++ decRepr j ++ "_rank").data.getLast? = some 'k' := by
    rw [strApp_data]
    have hr : ("award_" ++ decRepr j).data ++ "_rank".data =
        (("award_" ++ decRepr j).data ++ ['_', 'r', 'a', 'n']) ++ ['k'] := by
      rw [List.append_assoc]
      rfl
    rw [hr]
    exact getLast_append_singleton _ _
  rw [h] at h1
  rw [h2] at h1
  exact digitChar_ne_k d hd10 (Option.some.inj h1.symm)

theorem award_rank_inj {i j : Nat}
    (h : "award_" ++ decRepr i ++ "_rank" = "award_" ++ decRepr j ++ "_rank") :
    i = j := by
  have hd := congrArg String.data h
  rw [strApp_data, strApp_data, strApp_data, strApp_data,
    List.append_assoc, List.append_assoc] at hd
  have h1 := app_cancel_left _ _ _ hd
  have h2 := congrArg List.reverse h1
  rw [List.reverse_append, List.reverse_append] at h2
  have h3 := app_cancel_left _ _ _ h2
  have h4 := congrArg List.reverse h3
  rw [List.reverse_reverse, List.reverse_reverse] at h4
  exact decDigits_inj i j h4

theorem awardFields_keys_shape :
    ∀ (awl : List (String × String)) (j : Nat) (k : String),
      k ∈ dictKeys (awardFields j awl) →
      ∃ i, j + 1 ≤ i ∧
        (k = "award_" ++ decRepr i ∨ k = "award_" ++ decRepr i ++ "_rank")
  | [], _, _, h => by simp [awardFields, dictKeys] at h
  | (nm, rk) :: rest, j, k, h => by
    simp only [awardFields, dictKeys, List.map_cons, List.mem_cons] at h
    rcases h with h | h | h
    · exact ⟨j + 1, le_refl _, Or.inl h⟩
    · exact ⟨j + 1, le_refl _, Or.inr h⟩
    · obtain ⟨i, hi, hk⟩ := awardFields_keys_shape rest (j + 1) k h
      exact ⟨i, by omega, hk⟩

theorem awardFields_keys_nodup :
    ∀ (awl : List (String × String)) (j : Nat),
      (dictKeys (awardFields j awl)).Nodup
  | [], _ => by simp [awardFields, dictKeys]
  | (nm, rk) :: rest, j => by
    simp only [awardFields, dictKeys, List.map_cons]
    refine List.nodup_cons.mpr ⟨?_, List.nodup_cons.mpr ⟨?_, awardFields_keys_nodup rest (j + 1)⟩⟩
    · intro hmem
      rcases List.mem_cons.mp hmem with hc | hc
      · exact award_key_ne_rank (j + 1) (j + 1) hc
      · obtain ⟨i, hi, hk⟩ := awardFields_keys_shape rest (j + 1) _ hc
        rcases hk with hk | hk
        · have := award_key_inj hk
          omega
        · exact award_key_ne_rank (j + 1) i hk
    · intro hmem
      obtain ⟨i, hi, hk⟩ := awardFields_keys_shape rest (j + 1) _ hmem
      rcases hk with hk | hk
      · exact award_key_ne_rank i (j + 1) hk.symm
      · have := award_rank_inj hk
        omega

theorem awardFields_mem :
    ∀ (awl : List (String × String)) (j i : Nat) (hi : i < awl.length),
      ("award_" ++ decRepr (j + i + 1), FVal.str (awl.get ⟨i, hi⟩).1) ∈
          awardFields j awl ∧
        ("award_" ++ decRepr (j + i + 1) ++ "_rank",
            FVal.str (awl.get ⟨i, hi⟩).2) ∈ awardFields j awl
  | [], _, i, hi => by simp at hi
  | (nm, rk) :: rest, j, 0, hi => by
    constructor
    · simp only [awardFields, List.get]
      exact List.mem_cons_self _ _
    · simp only [awardFields, List.get]
      exact List.mem_cons_of_mem _ (List.mem_cons_self _ _)
  | (nm, rk) :: rest, j, i + 1, hi => by
    have hi' : i < rest.length := by
      simp at hi
      omega
    have hrec := awardFields_mem rest (j + 1) i hi'
    have harith : j + 1 + i + 1 = j + (i + 1) + 1 := by omega
    rw [harith] at hrec
    constructor
    · simp only [awardFields, List.get]
      exact List.mem_cons_of_mem _ (List.mem_cons_of_mem _ hrec.1)
    · simp only [awardFields, List.get]
      exact List.mem_cons_of_mem _ (List.mem_cons_of_mem _ hrec.2)
theorem mapM_loop_eq {α β : Type} (f : α → Option β) :
    ∀ (l : List α) (acc : List β),
      List.mapM.loop f l acc = (List.mapM f l).map (fun bs => acc.reverse ++ bs)
  | [], acc => by simp [List.mapM.loop, List.mapM]
  | a :: l, acc => by
    simp only [List.mapM.loop, List.mapM]
    cases hf : f a with
    | none => simp
    | some b =>
      simp only [Option.bind_eq_bind, Option.some_bind]
      rw [mapM_loop_eq f l (b :: acc), mapM_loop_eq f l [b]]
      cases List.mapM f l with
      | none => rfl
      | some bs => simp

theorem mapM_option_nil {α β : Type} (f : α → Option β) :
    List.mapM f ([] : List α) = some [] := rfl

theorem mapM_option_cons {α β : Type} (f : α → Option β) (a : α) (l : List α) :
    List.mapM f (a :: l) = (f a).bind (fun b => (List.mapM f l).map (fun bs => b :: bs)) := by
  show List.mapM.loop f (a :: l) [] = _
  simp only [List.mapM.loop]
  cases hf : f a with
  | none => simp
  | some b =>
    simp only [Option.bind_eq_bind, Option.some_bind]
    rw [mapM_loop_eq f l [b]]
    cases List.mapM f l with
    | none => rfl
    | some bs => simp

theorem mapM_some_length {α β : Type} (f : α → Option β) :
    ∀ (l : List α) (l' : List β), List.mapM f l = some l' → l.length = l'.length
  | [], l', h => by
    rw [mapM_option_nil] at h
    cases Option.some.inj h
    rfl
  | a :: l, l', h => by
    rw [mapM_option_cons] at h
    cases hf : f a with
    | none => rw [hf] at h; simp at h
    | some b =>
      rw [hf] at h
      cases hl : List.mapM f l with
      | none => rw [hl] at h; simp at h
      | some bs =>
        rw [hl] at h
        simp only [Option.some_bind, Option.map_some] at h
        rw [← Option.some.inj h]
        simp [mapM_some_length f l bs hl]

theorem mapM_singleton_inv {α β : Type} (f : α → Option β) (l : List α) (b : β)
    (h : List.mapM f l = some [b]) : ∃ a, l = [a] ∧ f a = some b := by
  cases l with
  | nil => rw [mapM_option_nil] at h; simp at h
  | cons a t =>
    cases t with
    | nil =>
      refine ⟨a, rfl, ?_⟩
      rw [mapM_option_cons, mapM_option_nil] at h
      cases hf : f a with
      | none => rw [hf] at h; simp at h
      | some b0 =>
        rw [hf] at h
        simp only [Option.some_bind, Option.map_some] at h
        have hb := Option.some.inj h
        simp at hb
        rw [hb]
    | cons a2 t2 =>
      have := mapM_some_length f (a :: a2 :: t2) [b] h
      simp at this

/-! ### Summary inversion lemmas -/

theorem teamTotals_shape (ps : List (List (String × FVal))) (sc : Rat)
    (ts : List (String × FVal)) (h : teamTotals ps sc = some ts) :
    ∃ k d sp a pa : Int,
      ts = [("kill", FVal.int k), ("death", FVal.int d),
        ("special", FVal.int sp), ("assist", FVal.int a),
        ("paint", FVal.int pa), ("score", FVal.rat sc)] := by
  unfold teamTotals at h
  cases h1 : sumStat ps "kill" with
  | none => rw [h1] at h; simp at h
  | some k =>
  cases h2 : sumStat ps "death" with
  | none => rw [h1, h2] at h; simp at h
  | some d =>
  cases h3 : sumStat ps "special" with
  | none => rw [h1, h2, h3] at h; simp at h
  | some sp =>
  cases h4 : sumStat ps "assist" with
  | none => rw [h1, h2, h3, h4] at h; simp at h
  | some a =>
  cases h5 : sumStat ps "paint" with
  | none => rw [h1, h2, h3, h4, h5] at h; simp at h
  | some pa =>
    rw [h1, h2, h3, h4, h5] at h
    simp only [Option.some.injEq] at h
    exact ⟨k, d, sp, a, pa, h.symm⟩

theorem team_summary_shape (wd : String → List (String × String)) (t : Team)
    (ts : List (String × FVal)) (h : Team.team_summary wd t = some ts) :
    ∃ k d sp a pa : Int,
      ts = [("kill", FVal.int k), ("death", FVal.int d),
        ("special", FVal.int sp), ("assist", FVal.int a),
        ("paint", FVal.int pa), ("score", FVal.rat t.score)] := by
  unfold Team.team_summary at h
  cases hps : t.players.mapM (PlayerFull.summary wd) with
  | none => rw [hps] at h; simp at h
  | some ps =>
    rw [hps] at h
    exact teamTotals_shape ps t.score ts h

theorem summary_shape (wd : String → List (String × String)) (ver : String)
    (m : Match) (s0 : List (String × FVal))
    (h : Match.summary wd ver m = some s0) :
    ∃ myStatsD myTeamV otherTeamsV myTeamStats otherTeamStats,
      m.my_stats wd = some myStatsD ∧
      m.myTeam.player_summary_detailed wd = some myTeamV ∧
      m.otherTeams.mapM (Team.player_summary_detailed wd) = some otherTeamsV ∧
      m.myTeam.team_summary wd = some myTeamStats ∧
      m.otherTeams.mapM (Team.team_summary wd) = some otherTeamStats ∧
      s0 = [("me", .str m.player.full_name), ("rule", .str m.rule),
        ("mode", .str m.mode), ("stage", .str m.stage),
        ("judgement", .str m.judgement), ("knockout", optStrFVal m.knockout),
        ("duration", .int m.duration), ("played_time", .str m.playedTime),
        ("version", .str ver), ("my_stats", .dict myStatsD),
        ("my_team", .list (myTeamV.map .dict)),
        ("other_teams", .list (otherTeamsV.map (fun tv => .list (tv.map .dict)))),
        ("awards", .list (m.awards.map (fun aw => .tup aw.name aw.rank))),
        ("my_team_stats", .dict myTeamStats),
        ("other_team_stats", .list (otherTeamStats.map .dict))] := by
  unfold Match.summary at h
  cases h1 : m.my_stats wd with
  | none => rw [h1] at h; simp at h
  | some myStatsD =>
  cases h2 : m.myTeam.player_summary_detailed wd with
  | none => rw [h1, h2] at h; simp at h
  | some myTeamV =>
  cases h3 : m.otherTeams.mapM (Team.player_summary_detailed wd) with
  | none => rw [h1, h2, h3] at h; simp at h
  | some otherTeamsV =>
  cases h4 : m.myTeam.team_summary wd with
  | none => rw [h1, h2, h3, h4] at h; simp at h
  | some myTeamStats =>
  cases h5 : m.otherTeams.mapM (Team.team_summary wd) with
  | none => rw [h1, h2, h3, h4, h5] at h; simp at h
  | some otherTeamStats =>
    rw [h1, h2, h3, h4, h5] at h
    simp only [Option.some.injEq] at h
    exact ⟨myStatsD, myTeamV, otherTeamsV, myTeamStats, otherTeamStats,
      rfl, rfl, rfl, rfl, rfl, h.symm⟩

theorem summary_eq (wd : String → List (String × String)) (ver : String)
    (m : Match) (myStatsD : List (String × FVal))
    (myTeamV : List (List (String × FVal)))
    (otherTeamsV : List (List (List (String × FVal))))
    (myTeamStats : List (String × FVal))
    (otherTeamStats : List (List (String × FVal)))
    (h1 : m.my_stats wd = some myStatsD)
    (h2 : m.myTeam.player_summary_detailed wd = some myTeamV)
    (h3 : m.otherTeams.mapM (Team.player_summary_detailed wd) = some otherTeamsV)
    (h4 : m.myTeam.team_summary wd = some myTeamStats)
    (h5 : m.otherTeams.mapM (Team.team_summary wd) = some otherTeamStats) :
    Match.summary wd ver m =
      some [("me", .str m.player.full_name), ("rule", .str m.rule),
        ("mode", .str m.mode), ("stage", .str m.stage),
        ("judgement", .str m.judgement), ("knockout", optStrFVal m.knockout),
        ("duration", .int m.duration), ("played_time", .str m.playedTime),
        ("version", .str ver), ("my_stats", .dict myStatsD),
        ("my_team", .list (myTeamV.map .dict)),
        ("other_teams", .list (otherTeamsV.map (fun tv => .list (tv.map .dict)))),
        ("awards", .list (m.awards.map (fun aw => .tup aw.name aw.rank))),
        ("my_team_stats", .dict myTeamStats),
        ("other_team_stats", .list (otherTeamStats.map .dict))] := by
  unfold Match.summary
  rw [h1, h2, h3, h4, h5]

theorem msSel_inv (d sel : List (String × FVal))
    (h : List.mapM (fun k => (dictGet d k).map (fun v => (k, v))) myStatsKeys =
      some sel) :
    ∃ wv pv ev kv dv sv av,
      dictGet d "weapon" = some wv ∧ dictGet d "paint" = some pv ∧
      dictGet d "elimination" = some ev ∧ dictGet d "kill" = some kv ∧
      dictGet d "death" = some dv ∧ dictGet d "special" = some sv ∧
      dictGet d "assist" = some av ∧
      sel = [("weapon", wv), ("paint", pv), ("elimination", ev), ("kill", kv),
        ("death", dv), ("special", sv), ("assist", av)] := by
  cases hw : dictGet d "weapon" with
  | none =>
    simp only [myStatsKeys, mapM_option_cons, hw, Option.map_none',
      Option.none_bind] at h
    exact Option.noConfusion h
  | some wv =>
  cases hp : dictGet d "paint" with
  | none =>
    simp only [myStatsKeys, mapM_option_cons, hw, hp, Option.map_none',
      Option.map_some', Option.some_bind, Option.none_bind] at h
    exact Option.noConfusion h
  | some pv =>
  cases he : dictGet d "elimination" with
  | none =>
    simp only [myStatsKeys, mapM_option_cons, hw, hp, he, Option.map_none',
      Option.map_some', Option.some_bind, Option.none_bind] at h
    exact Option.noConfusion h
  | some ev =>
  cases hk : dictGet d "kill" with
  | none =>
    simp only [myStatsKeys, mapM_option_cons, hw, hp, he, hk, Option.map_none',
      Option.map_some', Option.some_bind, Option.none_bind] at h
    exact Option.noConfusion h
  | some kv =>
  cases hd : dictGet d "death" with
  | none =>
    simp only [myStatsKeys, mapM_option_cons, hw, hp, he, hk, hd, Option.map_none',
      Option.map_some', Option.some_bind, Option.none_bind] at h
    exact Option.noConfusion h
  | some dv =>
  cases hs : dictGet d "special" with
  | none =>
    simp only [myStatsKeys, mapM_option_cons, hw, hp, he, hk, hd, hs, Option.map_none',
      Option.map_some', Option.some_bind, Option.none_bind] at h
    exact Option.noConfusion h
  | some sv =>
  cases ha : dictGet d "assist" with
  | none =>
    simp only [myStatsKeys, mapM_option_cons, hw, hp, he, hk, hd, hs, ha, Option.map_none',
      Option.map_some', Option.some_bind, Option.none_bind] at h
    exact Option.noConfusion h
  | some av =>
    simp only [myStatsKeys, mapM_option_cons, mapM_option_nil, hw, hp, he, hk,
      hd, hs, ha, Option.map_some', Option.some_bind] at h
    simp only [Option.some.injEq] at h
    exact ⟨wv, pv, ev, kv, dv, sv, av, rfl, rfl, rfl, rfl, rfl, rfl, rfl, h.symm⟩

/-- The 28 fixed-position fields of a flattened two-team match, in the order
`match_summary` produces them: the nine scalar match fields, the seven
selected acting-player stats, and the two teams' pluralized aggregates. -/
def flatBase (m : Match) (ver : String) (wv pv ev kv dv sv av : FVal)
    (mk md msp ma mpa ok od osp oa opa : Int) (sc2 : Rat) :
    List (String × FVal) :=
  [("me", .str m.player.full_name), ("rule", .str m.rule),
   ("mode", .str m.mode), ("stage", .str m.stage),
   ("judgement", .str m.judgement), ("knockout", optStrFVal m.knockout),
   ("duration", .int m.duration), ("played_time", .str m.playedTime),
   ("version", .str ver),
   ("weapon", wv), ("paint", pv), ("elimination", ev), ("kill", kv),
   ("death", dv), ("special", sv), ("assist", av),
   ("my_team_kills", .int mk), ("my_team_deaths", .int md),
   ("my_team_specials", .int msp), ("my_team_assists", .int ma),
   ("my_team_paints", .int mpa), ("my_team_scores", .rat m.myTeam.score),
   ("other_team_kills", .int ok), ("other_team_deaths", .int od),
   ("other_team_specials", .int osp), ("other_team_assists", .int oa),
   ("other_team_paints", .int opa), ("other_team_scores", .rat sc2)]

/-- The final `awards` expansion stage of `match_summary`, after the award
value has been decoded to a list of name/rank pairs. -/
def tupStep (s9 : List (String × FVal)) :
    Option (List (String × String)) → Option (List (String × FVal))
  | none => none
  | some awl => some (dictUpdate s9 (awardFields 0 awl))

/-- The `awards` pop stage of `match_summary`. -/
def awardsStep : Option (FVal × List (String × FVal)) →
    Option (List (String × FVal))
  | none => none
  | some (awv, s9) => tupStep s9 (asTupList awv)

/-- The stage of `match_summary` after the player stat selection: update the
remaining dict with the selected stats and both teams' prefixed aggregates,
then pop and expand the awards. -/
def selStep (s5 my ot : List (String × FVal)) :
    Option (List (String × FVal)) → Option (List (String × FVal))
  | none => none
  | some msSel =>
    awardsStep
      (dictPop (dictUpdate (dictUpdate (dictUpdate s5 msSel) my) ot) "awards")

theorem match_summary_red (wd : String → List (String × String)) (ver : String)
    (m : Match) (myStatsD : List (String × FVal))
    (myTeamV : List (List (String × FVal)))
    (otherTeamsV : List (List (List (String × FVal))))
    (mk md msp ma mpa ok od osp oa opa : Int) (sc2 : Rat)
    (hlen : ¬ m.otherTeams.length > 1)
    (hms : m.my_stats wd = some myStatsD)
    (hmtd : m.myTeam.player_summary_detailed wd = some myTeamV)
    (hotd : m.otherTeams.mapM (Team.player_summary_detailed wd) = some otherTeamsV)
    (hmts : m.myTeam.team_summary wd =
      some [("kill", FVal.int mk), ("death", FVal.int md),
        ("special", FVal.int msp), ("assist", FVal.int ma),
        ("paint", FVal.int mpa), ("score", FVal.rat m.myTeam.score)])
    (hots : m.otherTeams.mapM (Team.team_summary wd) =
      some [[("kill", FVal.int ok), ("death", FVal.int od),
        ("special", FVal.int osp), ("assist", FVal.int oa),
        ("paint", FVal.int opa), ("score", FVal.rat sc2)]]) :
    Match.match_summary wd ver m =
      selStep
        [("me", FVal.str m.player.full_name), ("rule", FVal.str m.rule),
         ("mode", FVal.str m.mode), ("stage", FVal.str m.stage),
         ("judgement", FVal.str m.judgement),
         ("knockout", optStrFVal m.knockout),
         ("duration", FVal.int m.duration),
         ("played_time", FVal.str m.playedTime),
         ("version", FVal.str ver),
         ("awards",
           FVal.list (m.awards.map (fun aw => FVal.tup aw.name aw.rank)))]
        [("my_team_kills", FVal.int mk), ("my_team_deaths", FVal.int md),
         ("my_team_specials", FVal.int msp),
         ("my_team_assists", FVal.int ma),
         ("my_team_paints", FVal.int mpa),
         ("my_team_scores", FVal.rat m.myTeam.score)]
        [("other_team_kills", FVal.int ok), ("other_team_deaths", FVal.int od),
         ("other_team_specials", FVal.int osp),
         ("other_team_assists", FVal.int oa),
         ("other_team_paints", FVal.int opa),
         ("other_team_scores", FVal.rat sc2)]
        (List.mapM (fun k => (dictGet myStatsD k).map (fun v => (k, v)))
          myStatsKeys) := by
  have hsum := summary_eq wd ver m myStatsD myTeamV otherTeamsV _ _
    hms hmtd hotd hmts hots
  unfold Match.match_summary
  rw [if_neg hlen, hsum]
  rfl

theorem asTupList_map :
    ∀ aws : List Award,
      asTupList (FVal.list (aws.map (fun aw => FVal.tup aw.name aw.rank))) =
        some (aws.map (fun aw => (aw.name, aw.rank)))
  | [] => rfl
  | aw :: rest => by
    have ih := asTupList_map rest
    simp only [asTupList, List.map_cons] at ih ⊢
    rw [mapM_option_cons]
    simp only [ih, Option.map_some', Option.some_bind]

theorem match_summary_nil_other (wd : String → List (String × String))
    (ver : String) (m : Match) (myStatsD : List (String × FVal))
    (myTeamV : List (List (String × FVal)))
    (myTeamStats : List (String × FVal))
    (hlen : ¬ m.otherTeams.length > 1)
    (hms : m.my_stats wd = some myStatsD)
    (hmtd : m.myTeam.player_summary_detailed wd = some myTeamV)
    (hotd : m.otherTeams.mapM (Team.player_summary_detailed wd) = some [])
    (hmts : m.myTeam.team_summary wd = some myTeamStats)
    (hots : m.otherTeams.mapM (Team.team_summary wd) = some []) :
    Match.match_summary wd ver m = none := by
  have hsum := summary_eq wd ver m myStatsD myTeamV [] myTeamStats []
    hms hmtd hotd hmts hots
  unfold Match.match_summary
  rw [if_neg hlen, hsum]
  rfl

theorem not_award_key (k : String) (hk : k.data.take 6 ≠ "award_".data) :
    ∀ (awl : List (String × String)) (j : Nat),
      k ∉ dictKeys (awardFields j awl) := by
  intro awl j hmem
  obtain ⟨i, _, hform⟩ := awardFields_keys_shape awl j k hmem
  apply hk
  have hlen6 : (6 : Nat) = "award_".data.length := rfl
  rcases hform with hform | hform
  · rw [hform, strApp_data, hlen6, List.take_left]
  · rw [hform, strApp_data, strApp_data, List.append_assoc, hlen6,
      List.take_left]

theorem dictPop_append {α : Type} :
    ∀ (l1 l2 : List (String × α)) (k : String) (v : α) (l1m : List (String × α)),
      dictPop l1 k = some (v, l1m) →
      dictPop (l1 ++ l2) k = some (v, l1m ++ l2)
  | [], _, _, _, _, h => by simp [dictPop] at h
  | (k0, v0) :: l1, l2, k, v, l1m, h => by
    by_cases hk : k0 = k
    · subst hk
      simp only [dictPop, eq_self_iff_true, if_true, Option.some.injEq, Prod.mk.injEq] at h
      obtain ⟨hv, hl⟩ := h
      subst hv
      subst hl
      simp [List.cons_append, dictPop]
    · simp only [dictPop, if_neg hk] at h
      cases hp : dictPop l1 k with
      | none => rw [hp] at h; simp at h
      | some p =>
        obtain ⟨p1, p2⟩ := p
        rw [hp] at h
        simp only [Option.map_some', Option.some.injEq, Prod.mk.injEq] at h
        obtain ⟨hv, hl⟩ := h
        subst hv
        subst hl
        have hrec := dictPop_append l1 l2 k p1 p2 hp
        simp [List.cons_append, dictPop, if_neg hk, hrec]

theorem updates_pop_eq (m : Match) (ver : String) (wv pv ev kv dv sv av : FVal)
    (mk md msp ma mpa ok od osp oa opa : Int) (sc2 : Rat) :
    dictPop (dictUpdate (dictUpdate (dictUpdate
            [("me", FVal.str m.player.full_name), ("rule", FVal.str m.rule),
             ("mode", FVal.str m.mode), ("stage", FVal.str m.stage),
             ("judgement", FVal.str m.judgement),
             ("knockout", optStrFVal m.knockout),
             ("duration", FVal.int m.duration),
             ("played_time", FVal.str m.playedTime),
             ("version", FVal.str ver),
             ("awards",
               FVal.list (m.awards.map (fun aw => FVal.tup aw.name aw.rank)))]
            [("weapon", wv), ("paint", pv), ("elimination", ev), ("kill", kv),
             ("death", dv), ("special", sv), ("assist", av)])
            [("my_team_kills", FVal.int mk), ("my_team_deaths", FVal.int md),
             ("my_team_specials", FVal.int msp),
             ("my_team_assists", FVal.int ma),
             ("my_team_paints", FVal.int mpa),
             ("my_team_scores", FVal.rat m.myTeam.score)])
            [("other_team_kills", FVal.int ok), ("other_team_deaths", FVal.int od),
             ("other_team_specials", FVal.int osp),
             ("other_team_assists", FVal.int oa),
             ("other_team_paints", FVal.int opa),
             ("other_team_scores", FVal.rat sc2)])
            "awards" =
      some (FVal.list (m.awards.map (fun aw => FVal.tup aw.name aw.rank)),
        flatBase m ver wv pv ev kv dv sv av mk md msp ma mpa ok od osp oa opa
          sc2) := by
  rw [dictUpdate_fresh
      [("weapon", wv), ("paint", pv), ("elimination", ev), ("kill", kv),
      ("death", dv), ("special", sv), ("assist", av)]
      [("me", FVal.str m.player.full_name), ("rule", FVal.str m.rule),
      ("mode", FVal.str m.mode), ("stage", FVal.str m.stage),
      ("judgement", FVal.str m.judgement), ("knockout", optStrFVal m.knockout),
      ("duration", FVal.int m.duration), ("played_time", FVal.str m.playedTime),
      ("version", FVal.str ver),
      ("awards", FVal.list (m.awards.map (fun aw => FVal.tup aw.name aw.rank)))]
      (by simp [dictKeys]) (by simp [dictKeys])]
  rw [dictUpdate_fresh
      [("my_team_kills", FVal.int mk), ("my_team_deaths", FVal.int md),
      ("my_team_specials", FVal.int msp), ("my_team_assists", FVal.int ma),
      ("my_team_paints", FVal.int mpa),
      ("my_team_scores", FVal.rat m.myTeam.score)]
      ([("me", FVal.str m.player.full_name), ("rule", FVal.str m.rule),
      ("mode", FVal.str m.mode), ("stage", FVal.str m.stage),
      ("judgement", FVal.str m.judgement), ("knockout", optStrFVal m.knockout),
      ("duration", FVal.int m.duration), ("played_time", FVal.str m.playedTime),
      ("version", FVal.str ver),
      ("awards", FVal.list (m.awards.map (fun aw => FVal.tup aw.name aw.rank)))] ++
      [("weapon", wv), ("paint", pv), ("elimination", ev), ("kill", kv),
      ("death", dv), ("special", sv), ("assist", av)])
      (by simp [dictKeys]) (by simp [dictKeys])]
  rw [dictUpdate_fresh
      [("other_team_kills", FVal.int ok), ("other_team_deaths", FVal.int od),
      ("other_team_specials", FVal.int osp), ("other_team_assists", FVal.int oa),
      ("other_team_paints", FVal.int opa), ("other_team_scores", FVal.rat sc2)]
      (([("me", FVal.str m.player.full_name), ("rule", FVal.str m.rule),
      ("mode", FVal.str m.mode), ("stage", FVal.str m.stage),
      ("judgement", FVal.str m.judgement), ("knockout", optStrFVal m.knockout),
      ("duration", FVal.int m.duration), ("played_time", FVal.str m.playedTime),
      ("version", FVal.str ver),
      ("awards", FVal.list (m.awards.map (fun aw => FVal.tup aw.name aw.rank)))] ++
      [("weapon", wv), ("paint", pv), ("elimination", ev), ("kill", kv),
      ("death", dv), ("special", sv), ("assist", av)]) ++
      [("my_team_kills", FVal.int mk), ("my_team_deaths", FVal.int md),
      ("my_team_specials", FVal.int msp), ("my_team_assists", FVal.int ma),
      ("my_team_paints", FVal.int mpa),
      ("my_team_scores", FVal.rat m.myTeam.score)])
      (by simp [dictKeys]) (by simp [dictKeys])]
  rw [List.append_assoc, List.append_assoc]
  have hpop : dictPop
      [("me", FVal.str m.player.full_name), ("rule", FVal.str m.rule),
        ("mode", FVal.str m.mode), ("stage", FVal.str m.stage),
        ("judgement", FVal.str m.judgement), ("knockout", optStrFVal m.knockout),
        ("duration", FVal.int m.duration), ("played_time", FVal.str m.playedTime),
        ("version", FVal.str ver),
        ("awards", FVal.list (m.awards.map (fun aw => FVal.tup aw.name aw.rank)))]
      "awards" =
      some (FVal.list (m.awards.map (fun aw => FVal.tup aw.name aw.rank)),
        [("me", FVal.str m.player.full_name), ("rule", FVal.str m.rule),
          ("mode", FVal.str m.mode), ("stage", FVal.str m.stage),
          ("judgement", FVal.str m.judgement), ("knockout", optStrFVal m.knockout),
          ("duration", FVal.int m.duration), ("played_time", FVal.str m.playedTime),
          ("version", FVal.str ver)]) := rfl
  exact dictPop_append _ _ _ _ _ hpop

/-- Claim C7 (amended): flattening a match fails on more than one opposing
team (the tricolor guard), and also fails on zero opposing teams (the
`other_team_stats[0]` index); a successful flattening implies exactly one
opposing team, and the flat mapping carries every own-team aggregate stat
under the pluralized `my_team_` prefix, every opposing-team aggregate under
the pluralized `other_team_` prefix, the two team scores under
`my_team_scores` / `other_team_scores`, and the award list expanded in
source order as the numbered fields `award_{i+1}` / `award_{i+1}_rank`. -/
theorem claim_C7_amended (wd : String → List (String × String)) (ver : String) :
    (∀ m : Match, m.otherTeams.length > 1 → Match.match_summary wd ver m = none) ∧
    (∀ m : Match, m.otherTeams = [] → Match.match_summary wd ver m = none) ∧
    (∀ (m : Match) (flat : List (String × FVal)),
      Match.match_summary wd ver m = some flat →
      ∃ ot mts ots,
        m.otherTeams = [ot] ∧
        m.myTeam.team_summary wd = some mts ∧
        Team.team_summary wd ot = some ots ∧
        (∀ k v, (k, v) ∈ mts → dictGet flat ("my_team_" ++ k ++ "s") = some v) ∧
        (∀ k v, (k, v) ∈ ots → dictGet flat ("other_team_" ++ k ++ "s") = some v) ∧
        dictGet flat "my_team_scores" = some (.rat m.myTeam.score) ∧
        dictGet flat "other_team_scores" = some (.rat ot.score) ∧
        (∀ i (hi : i < m.awards.length),
          dictGet flat ("award_" ++ decRepr (i + 1)) =
            some (.str (m.awards.get ⟨i, hi⟩).name) ∧
          dictGet flat ("award_" ++ decRepr (i + 1) ++ "_rank") =
            some (.str (m.awards.get ⟨i, hi⟩).rank))) := by
  refine ⟨?_, ?_, ?_⟩
  · intro m hgt
    unfold Match.match_summary
    rw [if_pos hgt]
  · intro m hnil
    have hlen : ¬ m.otherTeams.length > 1 := by simp [hnil]
    cases hsum0 : Match.summary wd ver m with
    | none =>
      unfold Match.match_summary
      rw [if_neg hlen, hsum0]
    | some s0 =>
      obtain ⟨msD, mtV, otV, mts0, ots0, h1, h2, h3, h4, h5, hs0⟩ :=
        summary_shape wd ver m s0 hsum0
      exact match_summary_nil_other wd ver m msD mtV mts0 hlen h1 h2
        (by rw [hnil, mapM_option_nil]) h4 (by rw [hnil, mapM_option_nil])
  · intro m flat h
    by_cases hgt : m.otherTeams.length > 1
    · exfalso
      unfold Match.match_summary at h
      rw [if_pos hgt] at h
      exact Option.noConfusion h
    cases hsum0 : Match.summary wd ver m with
    | none =>
      exfalso
      unfold Match.match_summary at h
      rw [if_neg hgt, hsum0] at h
      exact Option.noConfusion h
    | some s0 =>
    obtain ⟨msD, mtV, otV, mts0, ots0, h1, h2, h3, h4, h5, hs0⟩ :=
      summary_shape wd ver m s0 hsum0
    obtain ⟨mk, md, msp, ma, mpa, hmtsE⟩ := team_summary_shape wd m.myTeam mts0 h4
    cases ots0 with
    | nil =>
      exfalso
      have hlen0 := mapM_some_length _ m.otherTeams [] h5
      have hnil : m.otherTeams = [] := List.eq_nil_of_length_eq_zero (by simpa using hlen0)
      have hnone := match_summary_nil_other wd ver m msD mtV mts0 hgt h1 h2
        (by rw [hnil, mapM_option_nil]) h4 (by rw [hnil, mapM_option_nil])
      rw [hnone] at h
      exact Option.noConfusion h
    | cons ot1 otsRest =>
    cases otsRest with
    | cons o2 r2 =>
      exfalso
      have hlen2 := mapM_some_length _ m.otherTeams _ h5
      simp only [List.length_cons] at hlen2
      omega
    | nil =>
    obtain ⟨ot, hot, hots1⟩ := mapM_singleton_inv _ m.otherTeams ot1 h5
    obtain ⟨ok, od, osp, oa, opa, hot1E⟩ := team_summary_shape wd ot ot1 hots1
    subst hmtsE
    subst hot1E
    rw [match_summary_red wd ver m msD mtV otV mk md msp ma mpa ok od osp oa opa
      ot.score hgt h1 h2 h3 h4 h5] at h
    cases hsel : List.mapM (fun k => (dictGet msD k).map (fun v => (k, v)))
        myStatsKeys with
    | none =>
      rw [hsel] at h
      simp only [selStep] at h
      exact Option.noConfusion h
    | some sel =>
    rw [hsel] at h
    obtain ⟨wv, pv, ev, kv, dv, sv, av, hgw, hgp, hge, hgk, hgd, hgs, hga, hselE⟩ :=
      msSel_inv msD sel hsel
    subst hselE
    simp only [selStep] at h
    rw [updates_pop_eq m ver wv pv ev kv dv sv av mk md msp ma mpa ok od osp oa
      opa ot.score] at h
    simp only [awardsStep] at h
    rw [asTupList_map] at h
    simp only [tupStep] at h
    have hflat := Option.some.inj h
    refine ⟨ot, _, _, hot, h4, hots1, ?_, ?_, ?_, ?_, ?_⟩
    · intro k v hmem
      rw [← hflat]
      simp only [List.mem_cons, List.not_mem_nil, or_false] at hmem
      rcases hmem with he | he | he | he | he | he <;>
        (injection he with hk hv; subst hk; subst hv;
          rw [dictUpdate_get_frame _ _ _ (not_award_key _ (by decide) _ _)];
          rfl)
    · intro k v hmem
      rw [← hflat]
      simp only [List.mem_cons, List.not_mem_nil, or_false] at hmem
      rcases hmem with he | he | he | he | he | he <;>
        (injection he with hk hv; subst hk; subst hv;
          rw [dictUpdate_get_frame _ _ _ (not_award_key _ (by decide) _ _)];
          rfl)
    · rw [← hflat,
        dictUpdate_get_frame _ _ _ (not_award_key _ (by decide) _ _)]
      rfl
    · rw [← hflat,
        dictUpdate_get_frame _ _ _ (not_award_key _ (by decide) _ _)]
      rfl
    · intro i hi
      have hiL : i < (m.awards.map (fun aw => (aw.name, aw.rank))).length := by
        simpa using hi
      have hmem := awardFields_mem (m.awards.map (fun aw => (aw.name, aw.rank)))
        0 i hiL
      have hz : 0 + i + 1 = i + 1 := by omega
      rw [hz] at hmem
      have hget1 : ((m.awards.map (fun aw => (aw.name, aw.rank))).get ⟨i, hiL⟩).1 =
          (m.awards.get ⟨i, hi⟩).name := by
        simp
      have hget2 : ((m.awards.map (fun aw => (aw.name, aw.rank))).get ⟨i, hiL⟩).2 =
          (m.awards.get ⟨i, hi⟩).rank := by
        simp
      rw [hget1, hget2] at hmem
      constructor
      · rw [← hflat,
          dictUpdate_get_mem _ _ _ _ (awardFields_keys_nodup _ 0) hmem.1]
      · rw [← hflat,
          dictUpdate_get_mem _ _ _ _ (awardFields_keys_nodup _ 0) hmem.2]

def resultTeamA : Result := { score := some 53 }

def resultTeamB : Result := { score := some 51 }

def resultPlayerB : Result :=
  { kill := some 4, death := some 6, assist := some 1, special := some 2 }

def playerFullB : PlayerFull :=
  { name := "Ray", nameId := "2207",
    headGear := ⟨"Head", ⟨"Ink Recovery Up"⟩, [⟨"Ink Saver (Main)"⟩]⟩,
    clothingGear := ⟨"Clothes", ⟨"Comeback"⟩, []⟩,
    shoesGear := ⟨"Shoes", ⟨"Stealth Jump"⟩, [⟨"Run Speed Up"⟩]⟩,
    paint := 902,
    isMyself := false, species := "OCTOLING",
    weapon := "Splattershot", weaponId := "V2VhcG9uLTQw",
    result := some resultPlayerB }

def teamA : Team :=
  { judgement := "WIN", players := [playerFullC10], order := 1,
    result := some resultTeamA }

def teamB : Team :=
  { judgement := "LOSE", players := [playerFullB], order := 2,
    result := some resultTeamB }

def mC7 : Match :=
  { id := "VnNIaXN0b3J5RGV0YWlsLTE=", rule := "AREA", mode := "BANKARA",
    stage := "Inkblot Art Academy", player := playerFullC10.toPlayer,
    judgement := "WIN", myTeam := teamA, otherTeams := [teamB],
    awards := [⟨"No.1 Overall Splatter", "GOLD"⟩,
      ⟨"No.1 Turf Inker", "SILVER"⟩, ⟨"No.1 Splat Assister", "BRONZE"⟩],
    duration := 180, playedTime := "20230105T203213", knockout := some "NEITHER" }

/-- The same match with two opposing teams (a tricolor battle). -/
def mC7Big : Match :=
  { mC7 with otherTeams := [teamB, teamB] }

/-- The same match with no opposing team at all. -/
def mC7Zero : Match :=
  { mC7 with otherTeams := [] }

def flatC7 : List (String × FVal) :=
  dictUpdate
    (flatBase mC7 "5.0.0" (FVal.str "Splatterscope") (FVal.int 1073)
      (FVal.int 8) (FVal.int 6) (FVal.int 5) (FVal.int 4) (FVal.int 2)
      6 5 4 2 1073 3 6 2 1 902 51)
    (awardFields 0 [("No.1 Overall Splatter", "GOLD"),
      ("No.1 Turf Inker", "SILVER"), ("No.1 Splat Assister", "BRONZE")])

def msDC7 : List (String × FVal) := (mC7.my_stats wd0).getD []

def mtVC7 : List (List (String × FVal)) :=
  (Team.player_summary_detailed wd0 mC7.myTeam).getD []

def otVC7 : List (List (List (String × FVal))) :=
  (mC7.otherTeams.mapM (Team.player_summary_detailed wd0)).getD []

/-- Counterexample to claim C7 as stated: a match with zero opposing teams
does not have "more than one opposing team", yet flattening it fails (the
Python raises an `IndexError` at `other_team_stats[0]`) instead of producing
a flat mapping. -/
theorem claim_C7_counterexample :
    ¬ mC7Zero.otherTeams.length > 1 ∧
      Match.match_summary wd0 "5.0.0" mC7Zero = none :=
  ⟨by decide, rfl⟩

/-- Witness for claim C7 (amended) at a concrete two-team ranked match with
team scores 53 and 51 and three awards. -/
theorem claim_C7_amended_witness :
    Match.match_summary wd0 "5.0.0" mC7Big = none ∧
    Match.match_summary wd0 "5.0.0" mC7 = some flatC7 ∧
    dictGet flatC7 "my_team_scores" = some (.rat 53) ∧
    dictGet flatC7 "other_team_scores" = some (.rat 51) ∧
    dictGet flatC7 "award_1" = some (.str "No.1 Overall Splatter") ∧
    dictGet flatC7 "award_1_rank" = some (.str "GOLD") ∧
    dictGet flatC7 "award_2" = some (.str "No.1 Turf Inker") ∧
    dictGet flatC7 "award_2_rank" = some (.str "SILVER") ∧
    dictGet flatC7 "award_3" = some (.str "No.1 Splat Assister") ∧
    dictGet flatC7 "award_3_rank" = some (.str "BRONZE") := by
  have hmain := claim_C7_amended wd0 "5.0.0"
  have hred := match_summary_red wd0 "5.0.0" mC7 msDC7 mtVC7 otVC7
    6 5 4 2 1073 3 6 2 1 902 51 (by decide) rfl rfl rfl rfl rfl
  have hsel : List.mapM (fun k => (dictGet msDC7 k).map (fun v => (k, v)))
      myStatsKeys =
      some [("weapon", FVal.str "Splatterscope"), ("paint", FVal.int 1073),
        ("elimination", FVal.int 8), ("kill", FVal.int 6),
        ("death", FVal.int 5), ("special", FVal.int 4),
        ("assist", FVal.int 2)] := rfl
  have hflat : Match.match_summary wd0 "5.0.0" mC7 = some flatC7 := by
    rw [hred, hsel]
    simp only [selStep]
    rw [updates_pop_eq mC7 "5.0.0" (FVal.str "Splatterscope") (FVal.int 1073)
      (FVal.int 8) (FVal.int 6) (FVal.int 5) (FVal.int 4) (FVal.int 2)
      6 5 4 2 1073 3 6 2 1 902 51]
    simp only [awardsStep]
    rw [show asTupList
        (FVal.list (mC7.awards.map (fun aw => FVal.tup aw.name aw.rank))) =
      some [("No.1 Overall Splatter", "GOLD"), ("No.1 Turf Inker", "SILVER"),
        ("No.1 Splat Assister", "BRONZE")] from rfl]
    simp only [tupStep]
    rfl
  obtain ⟨ot, mts, ots, hot, hmts, hots, hmy, hoth, hmsc, hosc, haw⟩ :=
    hmain.2.2 mC7 flatC7 hflat
  have hot2 : [teamB] = [ot] := hot
  injection hot2 with hotb
  cases hotb
  exact ⟨hmain.1 mC7Big (by decide), hflat, hmsc, hosc,
    (haw 0 (by decide)).1, (haw 0 (by decide)).2,
    (haw 1 (by decide)).1, (haw 1 (by decide)).2,
    (haw 2 (by decide)).1, (haw 2 (by decide)).2⟩

/-! ## Recursive hydration (`JSONDataClass.__post_init__`)

A JSON value as passed to a schema constructor. -/
inductive JVal where
  | null
  | num (n : Int)
  | str (s : String)
  | obj (m : List (String × JVal))
  | arr (xs : List JVal)

/-- A field annotation as `__post_init__` distinguishes them: a scalar
annotation (`int`, `str`, ...), a nested record type, a `list[record]`
annotation (which has `__args__`), or a bare `list` annotation (whose missing
`__args__` raises the `AttributeError` that `__post_init__` turns into an
empty list). -/
inductive FType where
  | prim
  | node (ty : String)
  | listNode (ty : String)
  | listBare
deriving DecidableEq

/-- One dataclass field: its name, its annotation, and whether it carries a
default (so the generated `__init__` accepts its absence). -/
structure FieldSpec where
  name : String
  ftype : FType
  hasDefault : Bool
deriving DecidableEq

/-- The effective schema of each record type name: the inheritance-merged
annotation table that `get_annotations` computes by walking the MRO, keyed by
the dataclass name. -/
def SchemaEnv : Type := String → Option (List FieldSpec)

/-- A hydrated record tree. -/
inductive RVal where
  | prim (v : JVal)
  | node (ty : String) (fields : List (String × RVal))
  | listV (xs : List RVal)

/-- A plain (non-wrapped) Python exception raised during construction:
the dataclass `TypeError` for a wrong or missing field, or the
`AttributeError` of calling `.items()` on a non-mapping list element. -/
inductive PErr where
  | typeError
  | attrError
deriving DecidableEq

/-- A construction failure: a plain exception, the `SecondaryException`
wrapper carrying its cause (`raise SecondaryException from e`), or the
exhaustion of the structural fuel (an artifact of the embedding, never
produced with enough fuel). -/
inductive HydErr where
  | pErr (e : PErr)
  | secondary (cause : PErr)
  | fuelOut
deriving DecidableEq

/-- Python `k.replace("__", "_")`: left-to-right, non-overlapping. -/
def undubAux : List Char → List Char
  | [] => []
  | '_' :: '_' :: rest => '_' :: undubAux rest
  | c :: rest => c :: undubAux rest

def undub (s : String) : String := String.mk (undubAux s.data)

/-- `{k.replace("__", "_"): v for k, v in value.items()}`. -/
def normKeys (m : List (String × JVal)) : List (String × JVal) :=
  m.foldl (fun acc kv => dinsert acc (undub kv.1) kv.2) []

/-- The annotation of a declared field. -/
def fieldType (fs : List FieldSpec) (k : String) : Option FType :=
  (fs.find? (fun f => f.name == k)).map (fun f => f.ftype)

/-- Whether the generated dataclass `__init__` accepts the keyword mapping:
every keyword names a declared field and every field without a default is
supplied. A violation raises the plain `TypeError`. -/
def directOK (fs : List FieldSpec) (m : List (String × JVal)) : Bool :=
  m.all (fun kv => fs.any (fun f => f.name == kv.1)) &&
    fs.all (fun f => f.hasDefault || m.any (fun kv => kv.1 == f.name))

/-- The attribute dict right after `__init__`: every declared field in
declaration order, set from the keyword mapping or its default. -/
def fieldsInit (fs : List FieldSpec) (m : List (String × JVal)) :
    List (String × JVal) :=
  fs.map (fun f => (f.name, (dictGet m f.name).getD JVal.null))

mutual

/-- `cls(**m)`: the generated `__init__` (raising the plain `TypeError` on a
wrong or missing field) followed by `__post_init__` over the attribute
dict. -/
def hydrate (env : SchemaEnv) : Nat → String → List (String × JVal) →
    Except HydErr RVal
  | 0, _, _ => .error .fuelOut
  | fuel + 1, ty, m =>
    match env ty with
    | none => .error (.pErr .typeError)
    | some fs =>
      if directOK fs m then
        match postInit env fuel fs (fieldsInit fs m) with
        | .ok fields => .ok (.node ty fields)
        | .error e => .error e
      else .error (.pErr .typeError)

/-- The `for key, value in self.__dict__.items()` loop of `__post_init__`. -/
def postInit (env : SchemaEnv) : Nat → List FieldSpec →
    List (String × JVal) → Except HydErr (List (String × RVal))
  | 0, _, _ => .error .fuelOut
  | _ + 1, _, [] => .ok []
  | fuel + 1, fs, (k, v) :: rest =>
    match fieldStep env fuel fs k v with
    | .ok r =>
      match postInit env fuel fs rest with
      | .ok frest => .ok ((k, r) :: frest)
      | .error e => .error e
    | .error e => .error e

/-- One iteration of the `__post_init__` loop: hydrate a mapping value
through its annotation (wrapping any plain failure as a
`SecondaryException`, re-raising an inner `SecondaryException` unchanged),
hydrate a non-empty list of mappings elementwise through a `list[...]`
annotation (an annotation without `__args__` yields `[]`), and keep any
other value as it is. -/
def fieldStep (env : SchemaEnv) : Nat → List FieldSpec → String → JVal →
    Except HydErr RVal
  | 0, _, _, _ => .error .fuelOut
  | fuel + 1, fs, key, v =>
    match v with
    | .obj mv =>
      match fieldType fs key with
      | some (.node ty) =>
        match hydrate env fuel ty (normKeys mv) with
        | .ok r => .ok r
        | .error (.pErr e) => .error (.secondary e)
        | .error (.secondary c) => .error (.secondary c)
        | .error .fuelOut => .error .fuelOut
      | some _ => .error (.secondary .typeError)
      | none => .error (.secondary .typeError)
    | .arr (x :: xs) =>
      match x with
      | .obj _ =>
        match fieldType fs key with
        | some (.listNode ty) =>
          match hydrateElems env fuel ty (x :: xs) with
          | .ok rs => .ok (.listV rs)
          | .error e => .error e
        | some _ => .ok (.listV [])
        | none => .error (.secondary .typeError)
      | _ => .ok (.prim v)
    | _ => .ok (.prim v)

/-- The `[cls(**{k.replace("__", "_"): v for k, v in item.items()}) for item
in value]` comprehension: hydrate every element, wrapping a plain failure and
re-raising an inner `SecondaryException`; a non-mapping element raises the
`AttributeError` of `.items()`, wrapped like any plain error. -/
def hydrateElems (env : SchemaEnv) : Nat → String → List JVal →
    Except HydErr (List RVal)
  | 0, _, _ => .error .fuelOut
  | _ + 1, _, [] => .ok []
  | fuel + 1, ty, .obj mv :: rest =>
    match hydrate env fuel ty (normKeys mv) with
    | .ok r =>
      match hydrateElems env fuel ty rest with
      | .ok rs => .ok (r :: rs)
      | .error e => .error e
    | .error (.pErr e) => .error (.secondary e)
    | .error (.secondary c) => .error (.secondary c)
    | .error .fuelOut => .error .fuelOut
  | _ + 1, _, _ :: _ => .error (.secondary .attrError)

end

/-- Every failure escaping the `__post_init__` loop is the
`SecondaryException` wrapper (or the fuel artifact): the loop never lets a
plain exception through unwrapped. -/
theorem errShape : ∀ fuel : Nat,
    (∀ (env : SchemaEnv) (fs : List FieldSpec) (m : List (String × JVal))
        (e : HydErr), postInit env fuel fs m = .error e →
      (∃ c, e = .secondary c) ∨ e = .fuelOut) ∧
    (∀ (env : SchemaEnv) (fs : List FieldSpec) (k : String) (v : JVal)
        (e : HydErr), fieldStep env fuel fs k v = .error e →
      (∃ c, e = .secondary c) ∨ e = .fuelOut) ∧
    (∀ (env : SchemaEnv) (ty : String) (xs : List JVal) (e : HydErr),
        hydrateElems env fuel ty xs = .error e →
      (∃ c, e = .secondary c) ∨ e = .fuelOut) := by
  intro fuel
  induction fuel with
  | zero =>
    refine ⟨?_, ?_, ?_⟩
    · intro env fs m e h
      simp only [postInit] at h
      exact Or.inr (Except.error.inj h).symm
    · intro env fs k v e h
      simp only [fieldStep] at h
      exact Or.inr (Except.error.inj h).symm
    · intro env ty xs e h
      simp only [hydrateElems] at h
      exact Or.inr (Except.error.inj h).symm
  | succ fuel ih =>
    obtain ⟨ihP, ihF, ihE⟩ := ih
    refine ⟨?_, ?_, ?_⟩
    · intro env fs m e h
      cases m with
      | nil => simp [postInit] at h
      | cons kv rest =>
        obtain ⟨k, v⟩ := kv
        simp only [postInit] at h
        cases hf : fieldStep env fuel fs k v with
        | ok r =>
          rw [hf] at h
          cases hp : postInit env fuel fs rest with
          | ok frest => rw [hp] at h; simp at h
          | error e2 =>
            rw [hp] at h
            have he : e2 = e := Except.error.inj h
            exact he ▸ ihP env fs rest e2 hp
        | error e2 =>
          rw [hf] at h
          have he : e2 = e := Except.error.inj h
          exact he ▸ ihF env fs k v e2 hf
    · intro env fs k v e h
      cases v with
      | obj mv =>
        simp only [fieldStep] at h
        cases hft : fieldType fs k with
        | none =>
          rw [hft] at h
          exact Or.inl ⟨.typeError, (Except.error.inj h).symm⟩
        | some ft =>
          rw [hft] at h
          cases ft with
          | node ty =>
            have h2 : (match hydrate env fuel ty (normKeys mv) with
              | Except.ok r => Except.ok r
              | Except.error (HydErr.pErr e) => Except.error (HydErr.secondary e)
              | Except.error (HydErr.secondary c) =>
                Except.error (HydErr.secondary c)
              | Except.error HydErr.fuelOut => Except.error HydErr.fuelOut) =
                Except.error e := h
            cases hh : hydrate env fuel ty (normKeys mv) with
            | ok r => rw [hh] at h2; simp at h2
            | error e2 =>
              rw [hh] at h2
              cases e2 with
              | pErr pe => exact Or.inl ⟨pe, (Except.error.inj h2).symm⟩
              | secondary c => exact Or.inl ⟨c, (Except.error.inj h2).symm⟩
              | fuelOut => exact Or.inr (Except.error.inj h2).symm
          | prim => exact Or.inl ⟨.typeError, (Except.error.inj h).symm⟩
          | listNode ty => exact Or.inl ⟨.typeError, (Except.error.inj h).symm⟩
          | listBare => exact Or.inl ⟨.typeError, (Except.error.inj h).symm⟩
      | arr xs =>
        cases xs with
        | nil => simp [fieldStep] at h
        | cons x rest =>
          simp only [fieldStep] at h
          cases x with
          | obj mv =>
            cases hft : fieldType fs k with
            | none =>
              rw [hft] at h
              exact Or.inl ⟨.typeError, (Except.error.inj h).symm⟩
            | some ft =>
              rw [hft] at h
              cases ft with
              | listNode ty =>
                have h2 : (match hydrateElems env fuel ty
                    (JVal.obj mv :: rest) with
                  | Except.ok rs => Except.ok (RVal.listV rs)
                  | Except.error e => Except.error e) = Except.error e := h
                cases hh : hydrateElems env fuel ty (.obj mv :: rest) with
                | ok rs => rw [hh] at h2; simp at h2
                | error e2 =>
                  rw [hh] at h2
                  have he : e2 = e := Except.error.inj h2
                  exact he ▸ ihE env ty (.obj mv :: rest) e2 hh
              | prim => simp at h
              | node ty => simp at h
              | listBare => simp at h
          | null => simp at h
          | num n => simp at h
          | str s => simp at h
          | arr ys => simp at h
      | null => simp [fieldStep] at h
      | num n => simp [fieldStep] at h
      | str s => simp [fieldStep] at h
    · intro env ty xs e h
      cases xs with
      | nil => simp [hydrateElems] at h
      | cons x rest =>
        cases x with
        | obj mv =>
          simp only [hydrateElems] at h
          cases hh : hydrate env fuel ty (normKeys mv) with
          | ok r =>
            rw [hh] at h
            cases he2 : hydrateElems env fuel ty rest with
            | ok rs => rw [he2] at h; simp at h
            | error e2 =>
              rw [he2] at h
              have he : e2 = e := Except.error.inj h
              exact he ▸ ihE env ty rest e2 he2
          | error e2 =>
            rw [hh] at h
            cases e2 with
            | pErr pe => exact Or.inl ⟨pe, (Except.error.inj h).symm⟩
            | secondary c => exact Or.inl ⟨c, (Except.error.inj h).symm⟩
            | fuelOut => exact Or.inr (Except.error.inj h).symm
        | null => simp [hydrateElems] at h; exact Or.inl ⟨.attrError, h.symm⟩
        | num n => simp [hydrateElems] at h; exact Or.inl ⟨.attrError, h.symm⟩
        | str s => simp [hydrateElems] at h; exact Or.inl ⟨.attrError, h.symm⟩
        | arr ys => simp [hydrateElems] at h; exact Or.inl ⟨.attrError, h.symm⟩

/-- Claim C1: constructing a typed record from a mapping fails with the plain
(unwrapped) `TypeError` exactly when the direct construction itself rejects
the mapping (a wrong or missing required field); every other failure — in
particular a nested mapping or list-of-mappings value whose contained field
name has no entry in the record type's effective schema — surfaces as the
single `SecondaryException` wrapper carrying the plain cause; and a
successful construction returns a fully-built record of the requested type,
so no partially-constructed record is ever returned. -/
theorem claim_C1 (env : SchemaEnv) (fuel : Nat) (ty : String)
    (fs : List FieldSpec) (m : List (String × JVal))
    (henv : env ty = some fs) :
    (directOK fs m = false →
      hydrate env (fuel + 1) ty m = .error (.pErr .typeError)) ∧
    (∀ e, hydrate env (fuel + 1) ty m = .error e → e ≠ .fuelOut →
      (e = .pErr .typeError ∧ directOK fs m = false) ∨
      (∃ c, e = .secondary c ∧ directOK fs m = true)) ∧
    (∀ r, hydrate env (fuel + 1) ty m = .ok r →
      ∃ fields, r = .node ty fields) := by
  refine ⟨?_, ?_, ?_⟩
  · intro hd
    simp [hydrate, henv, hd]
  · intro e h hne
    cases hd : directOK fs m with
    | false =>
      left
      simp only [hydrate, henv, hd] at h
      simp at h
      exact ⟨h.symm, rfl⟩
    | true =>
      right
      simp only [hydrate, henv, hd, if_true] at h
      cases hp : postInit env fuel fs (fieldsInit fs m) with
      | ok fields => rw [hp] at h; simp at h
      | error e2 =>
        rw [hp] at h
        have he : e2 = e := Except.error.inj h
        rcases (errShape fuel).1 env fs (fieldsInit fs m) e2 hp with ⟨c, hc⟩ | hc
        · exact ⟨c, by rw [← he, hc], rfl⟩
        · exact absurd (by rw [← he, hc]) hne
  · intro r h
    cases hd : directOK fs m with
    | false =>
      simp only [hydrate, henv, hd] at h
      simp at h
    | true =>
      simp only [hydrate, henv, hd, if_true] at h
      cases hp : postInit env fuel fs (fieldsInit fs m) with
      | ok fields =>
        rw [hp] at h
        exact ⟨fields, (Except.ok.inj h).symm⟩
      | error e2 => rw [hp] at h; simp at h

def fsL2 : List FieldSpec := [⟨"b", FType.prim, false⟩]

def fsL1 : List FieldSpec := [⟨"a", FType.node "L2", false⟩]

def fsL1L : List FieldSpec := [⟨"a", FType.listNode "L2", false⟩]

def env0 : SchemaEnv := fun ty =>
  if ty = "L1" then some fsL1
  else if ty = "L2" then some fsL2
  else if ty = "L1L" then some fsL1L
  else none

def mInner : List (String × JVal) := [("bad", JVal.num 1)]

def mBad : List (String × JVal) := [("a", JVal.obj mInner)]

def mBadList : List (String × JVal) := [("a", JVal.arr [JVal.obj mInner])]

def mTop : List (String × JVal) := [("nope", JVal.num 1)]

def mGood : List (String × JVal) := [("a", JVal.obj [("b", JVal.num 7)])]

def rGood : RVal :=
  .node "L1" [("a", .node "L2" [("b", .prim (JVal.num 7))])]

/-- Witness for claim C1: in a two-type schema (`L1` with a nested `L2`
field), a wrong top-level field raises the plain type error, a nested
mapping (or list of mappings) with an undeclared field name raises the
wrapped secondary error, and a valid mapping hydrates to a full record. -/
theorem claim_C1_witness :
    env0 "L1" = some fsL1 ∧
    directOK fsL1 mTop = false ∧
    hydrate env0 7 "L1" mTop = .error (.pErr .typeError) ∧
    hydrate env0 7 "L1" mBad = .error (.secondary .typeError) ∧
    ((HydErr.secondary PErr.typeError = .pErr .typeError ∧
        directOK fsL1 mBad = false) ∨
      (∃ c, HydErr.secondary PErr.typeError = .secondary c ∧
        directOK fsL1 mBad = true)) ∧
    hydrate env0 7 "L1L" mBadList = .error (.secondary .typeError) ∧
    hydrate env0 7 "L1" mGood = .ok rGood ∧
    (∃ fields, rGood = .node "L1" fields) :=
  ⟨rfl, rfl,
    (claim_C1 env0 6 "L1" fsL1 mTop rfl).1 rfl,
    rfl,
    (claim_C1 env0 6 "L1" fsL1 mBad rfl).2.1 _ rfl (by decide),
    rfl,
    rfl,
    (claim_C1 env0 6 "L1" fsL1 mGood rfl).2.2 rGood rfl⟩

/-! ## Id indexing and search (`JSONDataClass.__index_ids` / `search_by_id`) -/

/-- A hydrated record tree as `__index_ids` walks it: a record (a
`JSONDataClass` instance, with its attribute dict in order), a list field
value, or any other attribute value carried as its `str(...)` form. -/
inductive RTree where
  | node (fields : List (String × RTree))
  | listN (ts : List RTree)
  | scalar (v : String)

/-- `isinstance(value, JSONDataClass)`. -/
def isRecord : RTree → Bool
  | .node _ => true
  | _ => false

mutual

/-- `__index_ids`: walk the attribute dict; recurse into record children and
record list items, merging their indexes with `dict.update`; record a
scalar value under the key `"id"` as `str(value) ↦ self`. A list item that
is not a record is skipped, and a list stored under the key `"id"` is
consumed by the list branch of the `elif` chain, never id-indexed. -/
def indexIds : RTree → List (String × RTree)
  | .node fields => indexFields (.node fields) [] fields
  | _ => []

def indexFields (self : RTree) :
    List (String × RTree) → List (String × RTree) → List (String × RTree)
  | acc, [] => acc
  | acc, (_, .node fs) :: rest =>
    indexFields self (dictUpdate acc (indexIds (.node fs))) rest
  | acc, (_, .listN ts) :: rest => indexFields self (indexItems acc ts) rest
  | acc, (k, .scalar v) :: rest =>
    if k = "id" then indexFields self (dinsert acc v self) rest
    else indexFields self acc rest

def indexItems :
    List (String × RTree) → List RTree → List (String × RTree)
  | acc, [] => acc
  | acc, .node fs :: ts => indexItems (dictUpdate acc (indexIds (.node fs))) ts
  | acc, _ :: ts => indexItems acc ts

end

/-- The instance state `search_by_id` interacts with: the record tree and the
two attribute slots the method's two spellings of the cache name can touch.
Inside the class body, `self.__id_index = ...` is name-mangled by Python to
the attribute `_JSONDataClass__id_index` (`attrMangled`), while
`getattr(self, "__id_index", None)` passes the string `"__id_index"`
unmangled and therefore consults a different attribute (`attrPlain`), which
no code ever assigns. -/
structure IdxState where
  tree : RTree
  attrPlain : Option (List (String × RTree))
  attrMangled : Option (List (String × RTree))

/-- `search_by_id` as written: the guard reads the unmangled attribute name
via `getattr`, the assignment and the final lookup use the mangled one. -/
def search_by_id (s : IdxState) (id : String) : Option RTree × IdxState :=
  let s2 := if s.attrPlain.isNone
    then { s with attrMangled := some (indexIds s.tree) } else s
  match s2.attrMangled with
  | none => (none, s2)
  | some idx => (dictGet idx id, s2)

/-- `search_by_id` as its docstring describes it ("Indexing is done on the
first call to this method, and then the generated index is used for
subsequent calls"): the guard consults the same attribute the assignment
writes, so a stored index is reused. -/
def search_by_id_cached (s : IdxState) (id : String) : Option RTree × IdxState :=
  let s2 := if s.attrMangled.isNone
    then { s with attrMangled := some (indexIds s.tree) } else s
  match s2.attrMangled with
  | none => (none, s2)
  | some idx => (dictGet idx id, s2)

/-- Claim C8 (code bug): the documented behavior would reuse a stored index,
but the code's guard tests the unmangled attribute name, which is never the
one assigned — so on a state whose cache slot is already populated the two
behaviors diverge: the documented version answers from the stored index
while the code rebuilds the index from the tree and overwrites the slot.
Moreover after a fresh first call the guard attribute is still unset, so
every subsequent call rebuilds again; the lookups themselves still agree
with the freshly built index both times. -/
theorem claim_C8 (t : RTree) (cached : List (String × RTree)) (id : String)
    (hne : dictGet cached id ≠ dictGet (indexIds t) id) :
    (search_by_id_cached ⟨t, none, some cached⟩ id).1 = dictGet cached id ∧
    (search_by_id ⟨t, none, some cached⟩ id).1 = dictGet (indexIds t) id ∧
    (search_by_id ⟨t, none, some cached⟩ id).1 ≠
      (search_by_id_cached ⟨t, none, some cached⟩ id).1 ∧
    (search_by_id ⟨t, none, none⟩ id).2.attrPlain = none ∧
    (search_by_id ⟨t, none, none⟩ id).2.attrMangled = some (indexIds t) ∧
    (search_by_id ⟨t, none, none⟩ id).1 = dictGet (indexIds t) id ∧
    (search_by_id ((search_by_id ⟨t, none, none⟩ id).2) id).1 =
      dictGet (indexIds t) id := by
  refine ⟨rfl, rfl, ?_, rfl, rfl, rfl, rfl⟩
  intro h
  exact hne (show dictGet cached id = dictGet (indexIds t) id from h.symm)

def rtLeaf1 : RTree :=
  .node [("id", .scalar "101"), ("weapon", .scalar "Splattershot")]

def rtLeaf2 : RTree := .node [("id", .scalar "102")]

def rtRootC8 : RTree :=
  .node [("id", .scalar "7"), ("results", .listN [rtLeaf1, rtLeaf2])]

/-- A poisoned cache: it resolves id "101" to the wrong record, so reusing it
is observably different from re-indexing. -/
def cachedC8 : List (String × RTree) := [("101", rtLeaf2)]

/-- Witness for claim C8 at a concrete record tree and pre-populated cache
slot: the documented behavior answers from the stored index, the code as
written re-indexes the tree, ignores the store, and overwrites it. -/
theorem claim_C8_witness :
    (search_by_id_cached ⟨rtRootC8, none, some cachedC8⟩ "101").1 =
      some rtLeaf2 ∧
    (search_by_id ⟨rtRootC8, none, some cachedC8⟩ "101").1 = some rtLeaf1 ∧
    (search_by_id ⟨rtRootC8, none, some cachedC8⟩ "101").1 ≠
      (search_by_id_cached ⟨rtRootC8, none, some cachedC8⟩ "101").1 ∧
    (search_by_id ⟨rtRootC8, none, none⟩ "101").2.attrPlain = none ∧
    (search_by_id ⟨rtRootC8, none, none⟩ "101").2.attrMangled =
      some (indexIds rtRootC8) ∧
    (search_by_id ⟨rtRootC8, none, none⟩ "101").1 = some rtLeaf1 ∧
    (search_by_id ((search_by_id ⟨rtRootC8, none, none⟩ "101").2) "101").1 =
      some rtLeaf1 := by
  have hne : dictGet cachedC8 "101" ≠ dictGet (indexIds rtRootC8) "101" := by
    have hval : dictGet (indexIds rtRootC8) "101" = some rtLeaf1 := rfl
    have hcv : dictGet cachedC8 "101" = some rtLeaf2 := rfl
    rw [hval, hcv]
    intro h
    have h2 := Option.some.inj h
    simp [rtLeaf1, rtLeaf2] at h2
  have hc := claim_C8 rtRootC8 cachedC8 "101" hne
  exact ⟨hc.1, hc.2.1, hc.2.2.1, hc.2.2.2.1, hc.2.2.2.2.1, hc.2.2.2.2.2.1,
    hc.2.2.2.2.2.2⟩

/-! ## Top-level list collections (`JSONDataClassListTopLevel.__getitem__`) -/

/-- A top-level collection: the declared element type (`next_level_type`, a
class attribute each concrete subclass overrides — the base class leaves it
at `JSONDataClass`) and the hydrated records in `data`. -/
structure TopColl where
  nextLevelType : String
  data : List RTree

/-- A Python exception raised by top-level indexing. -/
inductive PyExc where
  | typeError
  | indexError
deriving DecidableEq

/-- `isinstance(result, dict)`: the values reaching the slice path are
already-hydrated records, never raw mappings. -/
def isDictV : RTree → Bool := fun _ => false

/-- `JSONDataClassListTopLevel.__init__` on already-hydrated values: a
non-empty list of raw mappings would be hydrated elementwise; otherwise a
list whose items are not all instances of the declared element type raises a
`TypeError`; otherwise the list is stored as `data`. The constructor called
by the slice branch is the base class, whose `next_level_type` is the base
`JSONDataClass`, and every record is an instance of it. -/
def listTopLevelInit (nlt : String) (json : List RTree) : Except PyExc TopColl :=
  if json.length > 0 && json.all isDictV then .error .typeError
  else if !(json.all isRecord) then .error .typeError
  else .ok ⟨nlt, json⟩

/-- Python list indexing with negative wrap-around; `none` is the
`IndexError`. -/
def pyIdx (xs : List RTree) (i : Int) : Option RTree :=
  let n : Int := xs.length
  let j := if i < 0 then i + n else i
  if h : 0 ≤ j ∧ j < n then some (xs.get ⟨j.toNat, by omega⟩) else none

/-- Python list slicing `xs[a:b]` with clamped bounds and negative
wrap-around (step 1). -/
def pySlice (xs : List RTree) (a b : Option Int) : List RTree :=
  let n : Int := xs.length
  let norm : Int → Int := fun v => if v < 0 then max 0 (v + n) else min v n
  let lo := norm (a.getD 0)
  let hi := norm (b.getD n)
  (xs.drop lo.toNat).take (hi - lo).toNat

/-- One component of a tuple key: a string or an integer. -/
inductive SIKey where
  | s (v : String)
  | i (v : Int)
deriving DecidableEq

/-- A top-level index key: a string, an integer, a slice, or a tuple. -/
inductive TopKey where
  | str (s : String)
  | int (i : Int)
  | slice (a b : Option Int)
  | tup (first : SIKey) (rest : List SIKey)

/-- A top-level indexing result: a new collection (slice), a single record
(integer), or an element together with the residual tuple key that
`self.data[first_index][other_index]` hands to the element's own
`__getitem__`. -/
inductive TopRes where
  | coll (c : TopColl)
  | elem (t : RTree)
  | delegated (t : RTree) (rest : List SIKey)

/-- `JSONDataClassListTopLevel.__getitem__`: a tuple key delegates
`data[first][rest]` unless its first component is a string (`TypeError`); a
slice key re-wraps the sliced data in a new `JSONDataClassListTopLevel` —
the base class, not `type(self)`; a string key raises `TypeError`; an
integer key indexes `data`. -/
def topGetItem (c : TopColl) : TopKey → Except PyExc TopRes
  | .tup (.s _) _ => .error .typeError
  | .tup (.i i) rest =>
    match pyIdx c.data i with
    | none => .error .indexError
    | some t => .ok (.delegated t rest)
  | .slice a b =>
    match listTopLevelInit "JSONDataClass" (pySlice c.data a b) with
    | .error e => .error e
    | .ok c2 => .ok (.coll c2)
  | .str _ => .error .typeError
  | .int i =>
    match pyIdx c.data i with
    | none => .error .indexError
    | some t => .ok (.elem t)

def collC9 : TopColl := ⟨"battleNodeSchema", [rtLeaf1, rtLeaf2]⟩

/-- Counterexample to claim C9 as stated: slicing a collection whose declared
element type is `battleNodeSchema` returns a collection built by the base
constructor, whose declared element type is the base `JSONDataClass` — not
the same declared element type as the original. -/
theorem claim_C9_counterexample :
    topGetItem collC9 (.slice (some 0) (some 1)) =
      .ok (.coll ⟨"JSONDataClass", [rtLeaf1]⟩) ∧
    collC9.nextLevelType = "battleNodeSchema" ∧
    ("JSONDataClass" : String) ≠ "battleNodeSchema" :=
  ⟨rfl, rfl, by decide⟩

theorem listTopLevelInit_ok (nlt : String) (json : List RTree)
    (hall : json.all isRecord = true) :
    listTopLevelInit nlt json = .ok ⟨nlt, json⟩ := by
  cases json with
  | nil => rfl
  | cons x xs =>
    simp only [listTopLevelInit, hall]
    simp [isDictV]

/-- Claim C9 (amended): indexing a top-level collection with a string key —
given directly or as the first element of a tuple key — fails with the
`TypeError`, while indexing with a slice returns a new collection (not a
bare sequence) holding the sliced data, built by the base constructor and
therefore carrying the base `JSONDataClass` as its declared element type
rather than the original collection's. -/
theorem claim_C9_amended (c : TopColl) :
    (∀ s, topGetItem c (.str s) = .error .typeError) ∧
    (∀ s rest, topGetItem c (.tup (.s s) rest) = .error .typeError) ∧
    (∀ a b, c.data.all isRecord = true →
      topGetItem c (.slice a b) =
        .ok (.coll ⟨"JSONDataClass", pySlice c.data a b⟩)) := by
  refine ⟨fun s => rfl, fun s rest => rfl, ?_⟩
  intro a b hall
  have hsub : (pySlice c.data a b).all isRecord = true := by
    rw [List.all_eq_true] at hall ⊢
    intro x hx
    simp only [pySlice] at hx
    exact hall x (List.mem_of_mem_drop (List.mem_of_mem_take hx))
  simp only [topGetItem]
  rw [listTopLevelInit_ok _ _ hsub]

/-- Witness for claim C9 (amended) at a concrete two-record collection of
declared element type `battleNodeSchema`. -/
theorem claim_C9_amended_witness :
    topGetItem collC9 (TopKey.str "weapon") = .error .typeError ∧
    topGetItem collC9 (.tup (.s "weapon") [.i 0]) = .error .typeError ∧
    collC9.data.all isRecord = true ∧
    topGetItem collC9 (.slice (some 0) (some 1)) =
      .ok (.coll ⟨"JSONDataClass", pySlice collC9.data (some 0) (some 1)⟩) :=
  ⟨(claim_C9_amended collC9).1 "weapon",
    (claim_C9_amended collC9).2.1 "weapon" [.i 0],
    rfl,
    (claim_C9_amended collC9).2.2 (some 0) (some 1) rfl⟩
